import Mathlib

/-!
# bmp-xor: a shallow embedding of `src/bmp-xor.c`

The program reads a 1-bit bitmap, XORs the visible bytes of every stored row
with a key file of the same (unpadded) size and writes the result.

Modelling conventions, fixed once for the whole development:

* a file is a `List Byte`; a `FILE *` is a `Stream` (content and cursor);
* the host is little-endian with 64-bit `long` and `size_t`, so a `uint32_t`
  read from the file is the little-endian value of its four bytes and the
  comparison `key_size != image_data_size` is exact;
* `fread` stores the bytes that are available at the start of the destination
  and leaves the rest of the destination as it was; the program never looks
  at the count `fread` returns;
* `int32_t` addition that overflows wraps around (two's complement);
* the automatic arrays `indexed_color`, `key_block` and `padded_row` live on the
  stack; a run is given the number of bytes its stack can give to them
  (`Args.stack`: the size of the stack less what the environment and the frames
  take) and is killed where an array that does not fit is declared and zeroed;
  an array of zero bytes can be taken;
* a run that is killed returns no exit code (`Result.code = none`), and so does a
  run that stores outside `padded_row`, after which nothing is defined; what
  such a run had written to the output stream before is kept in `Result.out`;
* the three paths on the command line name three different files.
-/

namespace BmpXor

/-! ## The program -/

/-- One octet of a file or of a buffer (`uint8_t`). -/
abbrev Byte := Fin 256

/-- An open `FILE *`: the content of the file and the cursor. -/
structure Stream where
  /-- The bytes of the file. -/
  data : List Byte
  /-- The offset of the next byte to be read. -/
  pos : Nat
deriving DecidableEq, Repr

/-- A zero-filled buffer, as `memset(buf, 0, n)` leaves it. -/
def zeros (n : Nat) : List Byte := List.replicate n 0

/-- Models `fseek(s, off, SEEK_SET)`. -/
def fseek_set (s : Stream) (off : Nat) : Stream := { s with pos := off }

/-- Models `fseek(s, 0, SEEK_END); ftell(s)`: the length of the file. -/
def ftell_end (s : Stream) : Nat := s.data.length

/-- Models `fread(buf, size, nmemb, s)`: the bytes available, at most `size * nmemb`, overwrite
the start of `buf`; the cursor advances by as many. The returned count is dropped, as the
program drops it. -/
def fread (buf : List Byte) (size nmemb : Nat) (s : Stream) : List Byte × Stream :=
  let got := (s.data.drop s.pos).take (size * nmemb)
  (got ++ buf.drop got.length, { s with pos := s.pos + got.length })

/-- Models `fwrite(buf, size, nmemb, out)`: appends `size * nmemb` bytes of `buf`. -/
def fwrite (buf : List Byte) (size nmemb : Nat) (out : List Byte) : List Byte :=
  out ++ buf.take (size * nmemb)

/-- The unsigned little-endian value of a byte sequence. -/
def le_uint : List Byte → Nat
  | [] => 0
  | b :: bs => b.val + 256 * le_uint bs

/-- The value of the `len`-byte unsigned field at offset `off` of a buffer. -/
def field (buf : List Byte) (off len : Nat) : Nat := le_uint ((buf.drop off).take len)

/-- A 32-bit pattern read as `int32_t`. -/
def to_int32 (n : Nat) : Int := if n % 4294967296 < 2147483648 then (n % 4294967296 : Nat) else ((n % 4294967296 : Nat) : Int) - 4294967296

/-- An `int` result stored in (or converted to) `uint32_t`. -/
def to_uint32 (i : Int) : Nat := (i % 4294967296).toNat

/-- Addition of two `int32_t`, wrapping on overflow. -/
def add_int32 (a b : Int) : Int := to_int32 (to_uint32 (a + b))

/-- The bytes of `bitmap_info_header_t` (40 bytes, no padding between the fields). -/
structure bitmap_info_header_t where
  /-- The 40 bytes of the structure as they lie in memory. -/
  bytes : List Byte
deriving DecidableEq, Repr

/-- Field `size` (`uint32_t`, offset 0). -/
def bitmap_info_header_t.size (h : bitmap_info_header_t) : Nat := field h.bytes 0 4
/-- Field `px_width` (`int32_t`, offset 4). -/
def bitmap_info_header_t.px_width (h : bitmap_info_header_t) : Int := to_int32 (field h.bytes 4 4)
/-- Field `px_height` (`int32_t`, offset 8). -/
def bitmap_info_header_t.px_height (h : bitmap_info_header_t) : Int := to_int32 (field h.bytes 8 4)
/-- Field `bit_count` (`uint16_t`, offset 14). -/
def bitmap_info_header_t.bit_count (h : bitmap_info_header_t) : Nat := field h.bytes 14 2
/-- Field `colors_used` (`uint32_t`, offset 32). -/
def bitmap_info_header_t.colors_used (h : bitmap_info_header_t) : Nat := field h.bytes 32 4

/-- The four fields of `bitmap_file_header_t`, each as the bytes it holds. -/
structure bitmap_file_header_t where
  /-- Field `type`, 2 bytes. -/
  type : List Byte
  /-- Field `size`, 4 bytes. -/
  size : List Byte
  /-- Field `reserved`, 4 bytes. -/
  reserved : List Byte
  /-- Field `offset_bits`, 4 bytes. -/
  offset_bits : List Byte
deriving DecidableEq, Repr

/-- Lines 53-55: `header_size = 0`, seek to `BITMAP_INFO_HEADER_START`, read four bytes. -/
def peek_header_size (fin : Stream) : Nat × Stream :=
  let r := fread (zeros 4) 4 1 (fseek_set fin 14)
  (le_uint r.1, r.2)

/-- Lines 69-82: both headers are zeroed, the stream is rewound, the four fields of the
file header are read one by one and the info header in one `fread`. -/
def read_headers (fin : Stream) : bitmap_file_header_t × bitmap_info_header_t × Stream :=
  let fin := fseek_set fin 0
  let r1 := fread (zeros 2) 2 1 fin
  let r2 := fread (zeros 4) 4 1 r1.2
  let r3 := fread (zeros 4) 4 1 r2.2
  let r4 := fread (zeros 4) 4 1 r3.2
  let r5 := fread (zeros 40) 1 40 r4.2
  (⟨r1.1, r2.1, r3.1, r4.1⟩, ⟨r5.1⟩, r5.2)

/-- Line 103: `(px_width + (8 - 1)) / 8` in `int` (C division truncates), stored in a
`uint32_t`. -/
def raw_data_width (px_width : Int) : Nat := to_uint32 (Int.tdiv (add_int32 px_width 7) 8)

/-- Line 9, the macro `GET_PADDING` at a `uint32_t` argument. -/
def GET_PADDING (N : Nat) : Nat := if N % 4 ≠ 0 then (N + (4 - N % 4)) % 4294967296 else N

/-- Lines 168-170: `padded_row[j] ^= key_block[j]` for every `j` below the length of
`key_block`; `none` when `padded_row` has no byte `j`. -/
def xor_visible : List Byte → List Byte → Option (List Byte)
  | row, [] => some row
  | [], _ :: _ => none
  | r :: row, k :: key => (xor_visible row key).map fun t => (r ^^^ k) :: t

/-- Lines 163-173: the row loop, `height` iterations. The two buffers keep their
content from one iteration to the next. -/
def row_loop (raw_width table_width : Nat) :
    Nat → List Byte → List Byte → Stream → Stream → List Byte → Option (List Byte)
  | 0, _, _, _, _, fout => some fout
  | height + 1, key_block, padded_row, fkey, fin, fout =>
    let k := fread key_block 1 raw_width fkey
    let p := fread padded_row 1 table_width fin
    match xor_visible p.1 k.1 with
    | none => none
    | some row => row_loop raw_width table_width height k.1 row k.2 p.2 (fwrite row 1 table_width fout)

/-- What one run is given: the argument count, the content of the input and key files
(`none` when `fopen` fails), whether the output file can be created, and the room on the
stack. -/
structure Args where
  /-- The value of `argc`. -/
  argc : Nat
  /-- The input bitmap, `argv[1]`. -/
  input : Option (List Byte)
  /-- The key file, `argv[2]`. -/
  key : Option (List Byte)
  /-- Whether `fopen(argv[3], "w")` succeeds. -/
  writable : Bool
  /-- The number of bytes the stack can give to the automatic arrays of `main`: the size
  of the stack less what the environment and the frames take. -/
  stack : Nat
deriving DecidableEq, Repr

/-- What one run leaves: the exit code and what was written to the output stream. -/
structure Result where
  /-- The value `main` returns; `none` when the run does not return (it is killed at an
  array that does not fit the stack, or it stores outside `padded_row`). -/
  code : Option Nat
  /-- The bytes the run has written to the output stream, `none` when the output file was
  never opened. After a run that does not return, the file holds at most these bytes. -/
  out : Option (List Byte)
deriving DecidableEq, Repr

/-- Whether an automatic array of `n` bytes can be taken on a stack of `stack` bytes of
which `used` bytes are taken by the arrays declared before (lines 97-98, 134-135 and
159-160: each array is declared and zeroed at once). -/
def fits (stack used n : Nat) : Bool := decide (used + n ≤ stack)

/-- Lines 96-173, entered once both headers are accepted. The run is killed where an
array does not fit the stack: `indexed_color` (line 97) before the key file is opened,
`key_block` (line 134) after the key size is checked, `padded_row` (line 159) after the
output file is opened and the headers and the color table are written. A store outside
`padded_row` can only come in the first pass of the row loop, before any row is written. -/
def transform (file_header : bitmap_file_header_t) (info_header : bitmap_info_header_t)
    (fin : Stream) (key : Option (List Byte)) (writable : Bool) (stack : Nat) : Result :=
  if fits stack 0 (info_header.colors_used * 4) = false then ⟨none, none⟩
  else
    let c := fread (zeros (info_header.colors_used * 4)) 4 info_header.colors_used fin
    let raw_width := raw_data_width info_header.px_width
    let data_table_width := GET_PADDING raw_width
    match key with
    | none => ⟨some 5, none⟩
    | some k =>
      let fkey : Stream := ⟨k, 0⟩
      let key_size := ftell_end fkey
      let image_data_size := (raw_width * to_uint32 info_header.px_height) % 4294967296
      if key_size ≠ image_data_size then ⟨some 6, none⟩
      else
        let fkey := fseek_set fkey 0
        if fits stack (info_header.colors_used * 4) raw_width = false then ⟨none, none⟩
        else if writable = false then ⟨some 7, none⟩
        else
          let fout := fwrite file_header.type 2 1 []
          let fout := fwrite file_header.size 4 1 fout
          let fout := fwrite file_header.reserved 4 1 fout
          let fout := fwrite file_header.offset_bits 4 1 fout
          let fout := fwrite info_header.bytes 40 1 fout
          let fout := fwrite c.1 4 info_header.colors_used fout
          if fits stack (info_header.colors_used * 4 + raw_width) data_table_width = false then
            ⟨none, some fout⟩
          else
            match row_loop raw_width data_table_width (to_uint32 info_header.px_height)
                (zeros raw_width) (zeros data_table_width) fkey c.2 fout with
            | some o => ⟨some 0, some o⟩
            | none => ⟨none, some fout⟩

/-- The function `main`, lines 40-180. -/
def main (a : Args) : Result :=
  if a.argc ≠ 4 then ⟨some 1, none⟩
  else
    match a.input with
    | none => ⟨some 2, none⟩
    | some d =>
      let p := peek_header_size ⟨d, 0⟩
      if p.1 ≠ 40 then ⟨some 3, none⟩
      else
        let h := read_headers p.2
        if h.2.1.bit_count ≠ 1 then ⟨some 4, none⟩
        else transform h.1 h.2.1 h.2.2 a.key a.writable a.stack

/-! ## The header and the buffers of a run, in terms of the input file -/

/-- The bytes of a stream that are still to be read. -/
def rest (s : Stream) : List Byte := s.data.drop s.pos

/-- A short read into a zeroed buffer: the bytes read, then zeros up to `n`. -/
def pad_to (n : Nat) (l : List Byte) : List Byte := l ++ zeros (n - l.length)

/-- The `uint32_t` at offset 14 of the file: the size of the info header. -/
def file_header_size (d : List Byte) : Nat := field d 14 4

/-- The `uint16_t` at offset 28 of the file: the bit depth. -/
def file_bit_count (d : List Byte) : Nat := field d 28 2

/-- The `int32_t` at offset 18 of the file: the width in pixels. -/
def file_px_width (d : List Byte) : Int := to_int32 (field d 18 4)

/-- The `int32_t` at offset 22 of the file: the height in pixels. -/
def file_px_height (d : List Byte) : Int := to_int32 (field d 22 4)

/-- The height as the row loop and the key size use it, converted to `uint32_t`. -/
def file_height (d : List Byte) : Nat := field d 22 4

/-- The `uint32_t` at offset 46 of the file: the number of color entries. -/
def file_colors_used (d : List Byte) : Nat := field d 46 4

/-- The unpadded row width the program computes for a file. -/
def file_raw_width (d : List Byte) : Nat := raw_data_width (file_px_width d)

/-- The padded row width the program computes for a file. -/
def file_table_width (d : List Byte) : Nat := GET_PADDING (file_raw_width d)

/-- The value of `image_data_size` the program computes for a file (a `uint32_t`). -/
def file_image_data_size (d : List Byte) : Nat :=
  (file_raw_width d * file_height d) % 4294967296

/-- The offset at which the program starts to read rows: past both headers and the
color table. -/
def file_pixel_offset (d : List Byte) : Nat := 54 + 4 * file_colors_used d

/-- The content of the header buffers the program writes back: each is the slice of the
file it was read from, zero-filled where the file ended early. -/
def file_head (d : List Byte) : List Byte :=
  pad_to 2 (d.take 2) ++ pad_to 4 ((d.drop 2).take 4) ++ pad_to 4 ((d.drop 6).take 4)
    ++ pad_to 4 ((d.drop 10).take 4) ++ pad_to 40 ((d.drop 14).take 40)
    ++ pad_to (4 * file_colors_used d) ((d.drop 54).take (4 * file_colors_used d))

/-- The bytes of stack the three automatic arrays take for a file: the color table, the
key block and the padded row. -/
def file_stack_need (d : List Byte) : Nat :=
  4 * file_colors_used d + file_raw_width d + file_table_width d

/-- The file header as `main` holds it after line 78, for an input file `d`. -/
def file_header_of (d : List Byte) : bitmap_file_header_t := (read_headers ⟨d, 0⟩).1

/-- The info header as `main` holds it after line 82, for an input file `d`. -/
def info_header_of (d : List Byte) : bitmap_info_header_t := (read_headers ⟨d, 0⟩).2.1

/-- The array `indexed_color` as `main` holds it after line 99, for an input file `d`. -/
def indexed_color_of (d : List Byte) : List Byte :=
  (fread (zeros ((info_header_of d).colors_used * 4)) 4 (info_header_of d).colors_used
    (read_headers ⟨d, 0⟩).2.2).1

/-! ## Concrete files -/

/-- A 2x2 monochrome bitmap: two color entries, rows `00 AA BB CC` and `FF 11 22 33`
(one visible byte and three padding bytes each). -/
def img22 : List Byte :=
  [0x42, 0x4D, 70, 0, 0, 0, 0, 0, 0, 0, 62, 0, 0, 0,
   40, 0, 0, 0, 2, 0, 0, 0, 2, 0, 0, 0, 1, 0, 1, 0, 0, 0, 0, 0, 8, 0, 0, 0,
   0, 0, 0, 0, 0, 0, 0, 0, 2, 0, 0, 0, 0, 0, 0, 0,
   0, 0, 0, 0, 255, 255, 255, 0,
   0x00, 0xAA, 0xBB, 0xCC, 0xFF, 0x11, 0x22, 0x33]

/-- The two-byte key of the scenario. -/
def key22 : List Byte := [0x03, 0xFF]

/-- The image the program writes for `img22` and `key22`. -/
def out22 : List Byte :=
  [0x42, 0x4D, 70, 0, 0, 0, 0, 0, 0, 0, 62, 0, 0, 0,
   40, 0, 0, 0, 2, 0, 0, 0, 2, 0, 0, 0, 1, 0, 1, 0, 0, 0, 0, 0, 8, 0, 0, 0,
   0, 0, 0, 0, 0, 0, 0, 0, 2, 0, 0, 0, 0, 0, 0, 0,
   0, 0, 0, 0, 255, 255, 255, 0,
   0x03, 0xAA, 0xBB, 0xCC, 0x00, 0x11, 0x22, 0x33]

/-- The run of the scenario: four arguments, all three files usable, a stack of 8 MiB. -/
def args22 : Args := ⟨4, some img22, some key22, true, 8388608⟩

/-- The 2x2 image with its bit depth set to 8. -/
def img22_depth8 : List Byte := img22.set 28 8

/-- A header that announces 32 x 1073741824 pixels (four visible bytes per row, `2 ^ 32`
bytes of pixel data in all), with two color entries and no pixel data. -/
def img_4gib : List Byte :=
  [0x42, 0x4D, 62, 0, 0, 0, 0, 0, 0, 0, 62, 0, 0, 0,
   40, 0, 0, 0, 32, 0, 0, 0, 0, 0, 0, 0x40, 1, 0, 1, 0, 0, 0, 0, 0, 0, 0, 0, 0,
   0, 0, 0, 0, 0, 0, 0, 0, 2, 0, 0, 0, 0, 0, 0, 0,
   0, 0, 0, 0, 255, 255, 255, 0]

/-- A file of 15 bytes: a file header and the single byte `40`. -/
def file15 : List Byte := [0x42, 0x4D, 0, 0, 0, 0, 0, 0, 0, 0, 0, 0, 0, 0, 40]

/-- The exit code the specification gives a run: that of the first check that fails, in
the order argument count (1), input file (2), info-header size (3), bit depth (4), key
file (5), key length (6), output file (7), and 0 when no check fails. -/
def first_failing_check (a : Args) : Nat :=
  if a.argc ≠ 4 then 1
  else
    match a.input with
    | none => 2
    | some d =>
      if file_header_size d ≠ 40 then 3
      else if file_bit_count d ≠ 1 then 4
      else
        match a.key with
        | none => 5
        | some k =>
          if k.length ≠ file_image_data_size d then 6
          else if a.writable = false then 7
          else 0

/-- A bitmap of 54 bytes, both headers and nothing else: info-header size 40, bit depth 1,
no color entry, and the given four bytes each for the width and the height. -/
def bare_header (width height : List Byte) : List Byte :=
  [0x42, 0x4D, 54, 0, 0, 0, 0, 0, 0, 0, 54, 0, 0, 0, 40, 0, 0, 0] ++ width ++ height
    ++ [1, 0, 1, 0, 0, 0, 0, 0, 0, 0, 0, 0, 0, 0, 0, 0, 0, 0, 0, 0, 0, 0, 0, 0, 0, 0, 0, 0]

/-- A header with width -15 and height -1. -/
def img_neg15 : List Byte := bare_header [0xF1, 0xFF, 0xFF, 0xFF] [0xFF, 0xFF, 0xFF, 0xFF]

/-- A header with width -31 and height -1. -/
def img_neg31 : List Byte := bare_header [0xE1, 0xFF, 0xFF, 0xFF] [0xFF, 0xFF, 0xFF, 0xFF]

/-- A header with the largest width, 2147483647, and height 1. -/
def img_max_width : List Byte := bare_header [0xFF, 0xFF, 0xFF, 0x7F] [1, 0, 0, 0]

/-- The 2x2 image cut after its first row (66 bytes). -/
def img22_one_row : List Byte := img22.take 66

/-- The output for `img22_one_row` and `key22`: the second row is the first output row
with its visible byte XORed with `FF`. -/
def out22_one_row : List Byte :=
  out22.take 66 ++ [0xFC, 0xAA, 0xBB, 0xCC]

/-- Whether a file offset lies in one of the header fields the program never looks at:
`type`, `size`, `reserved`, `offset_bits` (offsets 0 to 13), `planes` (26, 27),
`compression`, `image_size` and the two resolutions (30 to 45), `color_important`
(50 to 53). -/
def unvalidated_offset (i : Nat) : Bool :=
  decide (i < 14) || (decide (26 ≤ i) && decide (i < 28)) || (decide (30 ≤ i) && decide (i < 46))
    || (decide (50 ≤ i) && decide (i < 54))

/-- The 2x2 image with other values in every field the program never looks at. -/
def img22_other_fields : List Byte :=
  [0x4D, 0x42, 1, 2, 3, 4, 5, 6, 7, 8, 9, 9, 9, 9,
   40, 0, 0, 0, 2, 0, 0, 0, 2, 0, 0, 0, 7, 7, 1, 0, 3, 3, 3, 3, 4, 4, 4, 4,
   5, 5, 5, 5, 6, 6, 6, 6, 2, 0, 0, 0, 8, 8, 8, 8,
   0, 0, 0, 0, 255, 255, 255, 0,
   0x00, 0xAA, 0xBB, 0xCC, 0xFF, 0x11, 0x22, 0x33]

/-- The bytewise XOR of two keys. -/
def xor_keys (k₁ k₂ : List Byte) : List Byte := List.zipWith (fun x y => x ^^^ y) k₁ k₂

/-- The 2x2 image followed by one more byte. -/
def img22_trailing : List Byte := img22 ++ [0x00]

/-- The 2x2 image with the third byte of its color-count field set to `40` hex: it
announces 4194306 color entries, a color table of 16777224 bytes. -/
def img22_many_colors : List Byte := img22.set 48 0x40

/-- A header with width 0 and height 3 that announces 4194304 color entries, a color table
of 16777216 bytes. -/
def img_zero_width_many_colors : List Byte :=
  (bare_header [0, 0, 0, 0] [3, 0, 0, 0]).set 48 0x40

/-- A header with width 48000000 and height 1: one row of 6000000 bytes, none of which is
in the file. -/
def img_wide_one_row : List Byte := bare_header [0x00, 0x6C, 0xDC, 0x02] [1, 0, 0, 0]

/-- A key of 6000000 bytes `5A`. -/
def key_wide : List Byte := List.replicate 6000000 0x5A

/-! ## Bytes, buffers and streams -/

theorem xor_xor_same (a k : Byte) : (a ^^^ k) ^^^ k = a := by
  apply Fin.ext
  show ((a.val ^^^ k.val) % 256 ^^^ k.val) % 256 = a.val
  have h : a.val ^^^ k.val < 256 := Nat.xor_lt_two_pow (n := 8) a.isLt k.isLt
  rw [Nat.mod_eq_of_lt h, Nat.xor_cancel_right, Nat.mod_eq_of_lt a.isLt]

theorem zeros_length (n : Nat) : (zeros n).length = n := by simp [zeros]

theorem le_uint_append_zeros (l : List Byte) (n : Nat) : le_uint (l ++ zeros n) = le_uint l := by
  induction l with
  | nil =>
    induction n with
    | zero => simp [zeros, le_uint]
    | succ n ih =>
      have : zeros (n + 1) = 0 :: zeros n := by simp [zeros, List.replicate_succ]
      simp only [List.nil_append] at ih ⊢
      rw [this]
      simp [le_uint, ih]
  | cons b bs ih => simp [le_uint, ih]

theorem le_uint_lt (l : List Byte) : le_uint l < 256 ^ l.length := by
  induction l with
  | nil => simp [le_uint]
  | cons b bs ih =>
    have hb := b.isLt
    simp only [le_uint, List.length_cons, pow_succ]
    omega

theorem fread_fst (buf : List Byte) (size nmemb : Nat) (s : Stream) :
    (fread buf size nmemb s).1
      = (rest s).take (size * nmemb) ++ buf.drop ((rest s).take (size * nmemb)).length := rfl

theorem fread_rest (buf : List Byte) (size nmemb : Nat) (s : Stream) :
    rest (fread buf size nmemb s).2 = (rest s).drop (size * nmemb) := by
  simp only [fread, rest, List.length_take, List.length_drop]
  by_cases h : size * nmemb ≤ s.data.length - s.pos
  · rw [Nat.min_eq_left h, List.drop_drop]
  · have h1 : s.data.length - s.pos ≤ size * nmemb := by omega
    rw [Nat.min_eq_right h1, List.drop_eq_nil_of_le (by omega), List.drop_eq_nil_of_le]
    simp only [List.length_drop]
    omega

theorem fread_zeros (n size nmemb : Nat) (s : Stream) (h : size * nmemb = n) :
    (fread (zeros n) size nmemb s).1 = pad_to n ((rest s).take n) := by
  rw [fread_fst, h, pad_to, zeros, zeros, List.drop_replicate]

theorem fread_full (buf : List Byte) (size nmemb : Nat) (s : Stream)
    (hb : buf.length = size * nmemb) (hs : size * nmemb ≤ (rest s).length) :
    (fread buf size nmemb s).1 = (rest s).take (size * nmemb) := by
  rw [fread_fst, List.drop_eq_nil_of_le, List.append_nil]
  rw [List.length_take]
  omega

theorem fread_length (buf : List Byte) (size nmemb : Nat) (s : Stream)
    (hb : buf.length = size * nmemb) : (fread buf size nmemb s).1.length = size * nmemb := by
  rw [fread_fst]
  simp only [List.length_append, List.length_take, List.length_drop]
  omega

theorem pad_to_length (n : Nat) (l : List Byte) (h : l.length ≤ n) : (pad_to n l).length = n := by
  simp only [pad_to, List.length_append, zeros_length]
  omega

theorem pad_to_of_length (n : Nat) (l : List Byte) (h : l.length = n) : pad_to n l = l := by
  simp [pad_to, h, zeros]

theorem field_pad_to (n : Nat) (l : List Byte) (off len : Nat) :
    field (pad_to n l) off len = field l off len := by
  unfold field pad_to
  rw [List.drop_append_eq_append_drop, List.take_append_eq_append_take]
  have : List.take (len - (List.drop off l).length) (List.drop (off - l.length) (zeros (n - l.length)))
      = zeros (min (len - (List.drop off l).length) (n - l.length - (off - l.length))) := by
    simp [zeros, List.drop_replicate, List.take_replicate]
  rw [this, le_uint_append_zeros]

theorem field_take_drop (d : List Byte) (base n off len : Nat) (h : off + len ≤ n) :
    field ((d.drop base).take n) off len = field d (base + off) len := by
  unfold field
  rw [List.drop_take, List.take_take, List.drop_drop, Nat.min_eq_left (by omega)]

theorem field_lt (d : List Byte) (off len : Nat) : field d off len < 256 ^ len := by
  unfold field
  refine lt_of_lt_of_le (le_uint_lt _) ?_
  apply Nat.pow_le_pow_right (by decide)
  simp only [List.length_take]
  omega

/-! ## The XOR of one row -/

theorem xor_visible_length : ∀ (r k r' : List Byte), xor_visible r k = some r' → r'.length = r.length
  | r, [], r', h => by
    cases r <;> simp [xor_visible] at h <;> simp [← h]
  | [], _ :: _, r', h => by simp [xor_visible] at h
  | a :: r, b :: k, r', h => by
    simp only [xor_visible, Option.map_eq_some'] at h
    obtain ⟨t, ht, rfl⟩ := h
    simp [xor_visible_length r k t ht]

theorem xor_visible_le : ∀ (r k r' : List Byte), xor_visible r k = some r' → k.length ≤ r.length
  | r, [], r', _ => by simp
  | [], _ :: _, r', h => by simp [xor_visible] at h
  | a :: r, b :: k, r', h => by
    simp only [xor_visible, Option.map_eq_some'] at h
    obtain ⟨t, ht, rfl⟩ := h
    simp [xor_visible_le r k t ht]

theorem xor_visible_of_le : ∀ (r k : List Byte), k.length ≤ r.length → ∃ r', xor_visible r k = some r'
  | r, [], _ => ⟨r, by cases r <;> simp [xor_visible]⟩
  | [], _ :: _, h => by simp at h
  | a :: r, b :: k, h => by
    obtain ⟨t, ht⟩ := xor_visible_of_le r k (by simpa using h)
    exact ⟨(a ^^^ b) :: t, by simp [xor_visible, ht]⟩

theorem xor_visible_invol : ∀ (r k r' : List Byte), xor_visible r k = some r' → xor_visible r' k = some r
  | r, [], r', h => by
    cases r <;> simp [xor_visible] at h <;> subst h <;> simp [xor_visible]
  | [], _ :: _, r', h => by simp [xor_visible] at h
  | a :: r, b :: k, r', h => by
    simp only [xor_visible, Option.map_eq_some'] at h
    obtain ⟨t, ht, rfl⟩ := h
    simp [xor_visible, xor_visible_invol r k t ht, xor_xor_same]

theorem xor_visible_get_lt : ∀ (r k r' : List Byte), xor_visible r k = some r' → ∀ j, j < k.length →
    ∃ a b, r[j]? = some a ∧ k[j]? = some b ∧ r'[j]? = some (a ^^^ b)
  | r, [], r', _, j, hj => by simp at hj
  | [], _ :: _, r', h, _, _ => by simp [xor_visible] at h
  | a :: r, b :: k, r', h, j, hj => by
    simp only [xor_visible, Option.map_eq_some'] at h
    obtain ⟨t, ht, rfl⟩ := h
    cases j with
    | zero => exact ⟨a, b, by simp⟩
    | succ j =>
      obtain ⟨x, y, hx, hy, hz⟩ := xor_visible_get_lt r k t ht j (by simpa using hj)
      exact ⟨x, y, by simpa using hx, by simpa using hy, by simpa using hz⟩

theorem xor_visible_get_ge : ∀ (r k r' : List Byte), xor_visible r k = some r' → ∀ j, k.length ≤ j →
    r'[j]? = r[j]?
  | r, [], r', h, j, _ => by
    cases r <;> simp [xor_visible] at h <;> simp [← h]
  | [], _ :: _, r', h, _, _ => by simp [xor_visible] at h
  | a :: r, b :: k, r', h, j, hj => by
    simp only [xor_visible, Option.map_eq_some'] at h
    obtain ⟨t, ht, rfl⟩ := h
    cases j with
    | zero => simp at hj
    | succ j => simpa using xor_visible_get_ge r k t ht j (by simpa using hj)

/-! ## The row loop -/

theorem row_loop_acc (rw tw : Nat) : ∀ (n : Nat) (kb pr : List Byte) (fk fi : Stream) (fout : List Byte),
    row_loop rw tw n kb pr fk fi fout = (row_loop rw tw n kb pr fk fi []).map fun o => fout ++ o
  | 0, kb, pr, fk, fi, fout => by simp [row_loop]
  | n + 1, kb, pr, fk, fi, fout => by
    simp only [row_loop]
    cases hx : xor_visible (fread pr 1 tw fi).1 (fread kb 1 rw fk).1 with
    | none => simp
    | some row =>
      simp only
      rw [row_loop_acc rw tw n _ _ _ _ (fwrite row 1 tw fout),
        row_loop_acc rw tw n _ _ _ _ (fwrite row 1 tw [])]
      simp [fwrite, Option.map_map, Function.comp_def]

theorem fread_congr (buf : List Byte) (size nmemb : Nat) (s s' : Stream) (h : rest s = rest s') :
    (fread buf size nmemb s).1 = (fread buf size nmemb s').1
      ∧ rest (fread buf size nmemb s).2 = rest (fread buf size nmemb s').2 := by
  rw [fread_fst, fread_fst, fread_rest, fread_rest, h]
  exact ⟨rfl, rfl⟩

theorem row_loop_congr (rw tw : Nat) : ∀ (n : Nat) (kb pr : List Byte) (fk fi fk' fi' : Stream)
    (fout : List Byte), rest fk = rest fk' → rest fi = rest fi' →
    row_loop rw tw n kb pr fk fi fout = row_loop rw tw n kb pr fk' fi' fout
  | 0, kb, pr, fk, fi, fk', fi', fout, _, _ => by simp [row_loop]
  | n + 1, kb, pr, fk, fi, fk', fi', fout, hk, hi => by
    simp only [row_loop]
    obtain ⟨hk1, hk2⟩ := fread_congr kb 1 rw fk fk' hk
    obtain ⟨hi1, hi2⟩ := fread_congr pr 1 tw fi fi' hi
    rw [hk1, hi1]
    cases hx : xor_visible (fread pr 1 tw fi').1 (fread kb 1 rw fk').1 with
    | none => rfl
    | some row => exact row_loop_congr rw tw n _ _ _ _ _ _ _ hk2 hi2

/-- One iteration of the row loop, when the row buffer has `tw` bytes: either the store
leaves the buffer, or a row of `tw` bytes is written and the loop goes on. -/
theorem row_loop_succ (rw tw n : Nat) (kb pr : List Byte) (fk fi : Stream) (out : List Byte)
    (hpr : pr.length = tw) (h : row_loop rw tw (n + 1) kb pr fk fi [] = some out) :
    ∃ row o, xor_visible (fread pr 1 tw fi).1 (fread kb 1 rw fk).1 = some row
      ∧ row.length = tw
      ∧ row_loop rw tw n (fread kb 1 rw fk).1 row (fread kb 1 rw fk).2 (fread pr 1 tw fi).2 [] = some o
      ∧ out = row ++ o := by
  simp only [row_loop] at h
  cases hx : xor_visible (fread pr 1 tw fi).1 (fread kb 1 rw fk).1 with
  | none => simp [hx] at h
  | some row =>
    have hlen : row.length = tw := by
      rw [xor_visible_length _ _ _ hx, fread_length _ _ _ _ (by simpa using hpr), Nat.one_mul]
    simp only [hx] at h
    rw [row_loop_acc] at h
    simp only [Option.map_eq_some'] at h
    obtain ⟨o, ho, rfl⟩ := h
    refine ⟨row, o, rfl, hlen, ho, ?_⟩
    simp [fwrite, List.take_of_length_le (Nat.le_of_eq hlen)]

theorem row_loop_length (rw tw : Nat) : ∀ (n : Nat) (kb pr : List Byte) (fk fi : Stream)
    (out : List Byte), pr.length = tw → row_loop rw tw n kb pr fk fi [] = some out →
    out.length = tw * n
  | 0, kb, pr, fk, fi, out, _, h => by
    simp only [row_loop, Option.some.injEq] at h
    simp [← h]
  | n + 1, kb, pr, fk, fi, out, hpr, h => by
    obtain ⟨row, o, _, hlen, ho, rfl⟩ := row_loop_succ rw tw n kb pr fk fi out hpr h
    have := row_loop_length rw tw n _ _ _ _ o hlen ho
    simp only [List.length_append, this, hlen]
    ring

/-- The loop completes whenever the visible part of a row fits the row buffer. -/
theorem row_loop_of_le (rw tw : Nat) (hw : rw ≤ tw) : ∀ (n : Nat) (kb pr : List Byte)
    (fk fi : Stream) (fout : List Byte), kb.length = rw → pr.length = tw →
    ∃ out, row_loop rw tw n kb pr fk fi fout = some out
  | 0, kb, pr, fk, fi, fout, _, _ => ⟨fout, by simp [row_loop]⟩
  | n + 1, kb, pr, fk, fi, fout, hkb, hpr => by
    have hk : (fread kb 1 rw fk).1.length = rw := by
      rw [fread_length _ _ _ _ (by simpa using hkb), Nat.one_mul]
    have hp : (fread pr 1 tw fi).1.length = tw := by
      rw [fread_length _ _ _ _ (by simpa using hpr), Nat.one_mul]
    obtain ⟨row, hrow⟩ := xor_visible_of_le (fread pr 1 tw fi).1 (fread kb 1 rw fk).1 (by omega)
    have hlen : row.length = tw := by rw [xor_visible_length _ _ _ hrow, hp]
    simp only [row_loop, hrow]
    exact row_loop_of_le rw tw hw n _ _ _ _ _ hk hlen

/-- Running the loop on its own output with the same key stream gives back the rows it
was run on, when the input holds all of them. -/
theorem row_loop_roundtrip (rw tw : Nat) : ∀ (n : Nat) (kb pr pr' : List Byte)
    (fk fi fi' : Stream) (out : List Byte), pr.length = tw → pr'.length = tw →
    (rest fi).length = tw * n → row_loop rw tw n kb pr fk fi [] = some out → rest fi' = out →
    row_loop rw tw n kb pr' fk fi' [] = some (rest fi)
  | 0, kb, pr, pr', fk, fi, fi', out, _, _, hfi, _, _ => by
    have : rest fi = [] := List.eq_nil_of_length_eq_zero (by simpa using hfi)
    simp [row_loop, this]
  | n + 1, kb, pr, pr', fk, fi, fi', out, hpr, hpr', hfi, h, hfi' => by
    obtain ⟨row, o, hx, hlen, ho, rfl⟩ := row_loop_succ rw tw n kb pr fk fi out hpr h
    have hge : 1 * tw ≤ (rest fi).length := by rw [hfi]; nlinarith
    have hP : (fread pr 1 tw fi).1 = (rest fi).take tw := by
      rw [fread_full _ _ _ _ (by simpa using hpr) hge, Nat.one_mul]
    have hP2 : rest (fread pr 1 tw fi).2 = (rest fi).drop tw := by rw [fread_rest, Nat.one_mul]
    have hP' : (fread pr' 1 tw fi').1 = row := by
      rw [fread_full _ _ _ _ (by simpa using hpr') (by rw [hfi']; simp [hlen]), hfi', Nat.one_mul,
        ← hlen, List.take_left]
    have hP2' : rest (fread pr' 1 tw fi').2 = o := by
      rw [fread_rest, hfi', Nat.one_mul, ← hlen, List.drop_left]
    have hinv := xor_visible_invol _ _ _ hx
    have hPlen : (fread pr 1 tw fi).1.length = tw := by
      rw [fread_length _ _ _ _ (by simpa using hpr), Nat.one_mul]
    have ih := row_loop_roundtrip rw tw n (fread kb 1 rw fk).1 row (fread pr 1 tw fi).1
      (fread kb 1 rw fk).2 (fread pr 1 tw fi).2 (fread pr' 1 tw fi').2 o hlen hPlen
      (by rw [hP2, List.length_drop, hfi]; rw [Nat.mul_succ]; omega) ho hP2'
    simp only [row_loop, hP', hinv]
    rw [row_loop_acc, ih, hP2]
    simp [fwrite, hP, List.take_of_length_le, List.take_take]

/-- Bytes of a written row at or past `rw` are the bytes of the input row. -/
theorem row_loop_get_pad (rw tw : Nat) : ∀ (n : Nat) (kb pr : List Byte) (fk fi : Stream)
    (out : List Byte), kb.length = rw → pr.length = tw → tw * n ≤ (rest fi).length →
    row_loop rw tw n kb pr fk fi [] = some out →
    ∀ i j, i < n → rw ≤ j → j < tw → out[i * tw + j]? = (rest fi)[i * tw + j]?
  | 0, _, _, _, _, _, _, _, _, _, i, _, hi, _, _ => by omega
  | n + 1, kb, pr, fk, fi, out, hkb, hpr, hfi, h, i, j, hi, hj, hj' => by
    obtain ⟨row, o, hx, hlen, ho, rfl⟩ := row_loop_succ rw tw n kb pr fk fi out hpr h
    have hge : 1 * tw ≤ (rest fi).length := by rw [Nat.mul_succ] at hfi; omega
    have hK : (fread kb 1 rw fk).1.length = rw := by
      rw [fread_length _ _ _ _ (by simpa using hkb), Nat.one_mul]
    have hP : (fread pr 1 tw fi).1 = (rest fi).take tw := by
      rw [fread_full _ _ _ _ (by simpa using hpr) hge, Nat.one_mul]
    have hP2 : rest (fread pr 1 tw fi).2 = (rest fi).drop tw := by rw [fread_rest, Nat.one_mul]
    cases i with
    | zero =>
      rw [Nat.zero_mul, Nat.zero_add, List.getElem?_append_left (by omega),
        xor_visible_get_ge _ _ _ hx j (by omega), hP, List.getElem?_take, if_pos hj']
    | succ i =>
      have ih := row_loop_get_pad rw tw n _ _ _ _ o hK hlen
        (by rw [hP2, List.length_drop]; rw [Nat.mul_succ] at hfi; omega) ho i j (by omega) hj hj'
      have e : (i + 1) * tw + j - row.length = i * tw + j := by rw [hlen, Nat.succ_mul]; omega
      have e' : tw + (i * tw + j) = (i + 1) * tw + j := by rw [Nat.succ_mul]; omega
      rw [List.getElem?_append_right (by rw [hlen, Nat.succ_mul]; omega), e, ih, hP2,
        List.getElem?_drop, e']

/-- Bytes of a written row below `rw` are the input byte XOR the key byte of the same row
and column, when the key stream holds a chunk for every row. -/
theorem row_loop_get_xor (rw tw : Nat) : ∀ (n : Nat) (kb pr : List Byte) (fk fi : Stream)
    (out : List Byte), kb.length = rw → pr.length = tw → tw * n ≤ (rest fi).length →
    rw * n ≤ (rest fk).length → row_loop rw tw n kb pr fk fi [] = some out →
    ∀ i j, i < n → j < rw →
      ∃ a b, (rest fi)[i * tw + j]? = some a ∧ (rest fk)[i * rw + j]? = some b
        ∧ out[i * tw + j]? = some (a ^^^ b)
  | 0, _, _, _, _, _, _, _, _, _, _, i, _, hi, _ => by omega
  | n + 1, kb, pr, fk, fi, out, hkb, hpr, hfi, hfk, h, i, j, hi, hj => by
    obtain ⟨row, o, hx, hlen, ho, rfl⟩ := row_loop_succ rw tw n kb pr fk fi out hpr h
    have hge : 1 * tw ≤ (rest fi).length := by rw [Nat.mul_succ] at hfi; omega
    have hgek : 1 * rw ≤ (rest fk).length := by rw [Nat.mul_succ] at hfk; omega
    have hK : (fread kb 1 rw fk).1 = (rest fk).take rw := by
      rw [fread_full _ _ _ _ (by simpa using hkb) hgek, Nat.one_mul]
    have hKlen : (fread kb 1 rw fk).1.length = rw := by
      rw [fread_length _ _ _ _ (by simpa using hkb), Nat.one_mul]
    have hK2 : rest (fread kb 1 rw fk).2 = (rest fk).drop rw := by rw [fread_rest, Nat.one_mul]
    have hP : (fread pr 1 tw fi).1 = (rest fi).take tw := by
      rw [fread_full _ _ _ _ (by simpa using hpr) hge, Nat.one_mul]
    have hP2 : rest (fread pr 1 tw fi).2 = (rest fi).drop tw := by rw [fread_rest, Nat.one_mul]
    have hle : rw ≤ tw := by
      have := xor_visible_le _ _ _ hx
      rw [hKlen, fread_length _ _ _ _ (by simpa using hpr), Nat.one_mul] at this
      exact this
    cases i with
    | zero =>
      obtain ⟨a, b, ha, hb, hab⟩ := xor_visible_get_lt _ _ _ hx j (by omega)
      rw [hP, List.getElem?_take, if_pos (by omega)] at ha
      rw [hK, List.getElem?_take, if_pos hj] at hb
      refine ⟨a, b, by simpa using ha, by simpa using hb, ?_⟩
      rw [Nat.zero_mul, Nat.zero_add, List.getElem?_append_left (by omega), hab]
    | succ i =>
      obtain ⟨a, b, ha, hb, hab⟩ := row_loop_get_xor rw tw n _ _ _ _ o hKlen hlen
        (by rw [hP2, List.length_drop]; rw [Nat.mul_succ] at hfi; omega)
        (by rw [hK2, List.length_drop]; rw [Nat.mul_succ] at hfk; omega) ho i j (by omega) hj
      have e : (i + 1) * tw + j - row.length = i * tw + j := by rw [hlen, Nat.succ_mul]; omega
      have e' : tw + (i * tw + j) = (i + 1) * tw + j := by rw [Nat.succ_mul]; omega
      have e'' : rw + (i * rw + j) = (i + 1) * rw + j := by rw [Nat.succ_mul]; omega
      rw [hP2, List.getElem?_drop, e'] at ha
      rw [hK2, List.getElem?_drop, e''] at hb
      refine ⟨a, b, ha, hb, ?_⟩
      rw [List.getElem?_append_right (by rw [hlen, Nat.succ_mul]; omega), e, hab]

/-! ## The run of `main` in terms of the input file -/

theorem to_uint32_to_int32 (n : Nat) (h : n < 4294967296) : to_uint32 (to_int32 n) = n := by
  unfold to_uint32 to_int32
  rw [Nat.mod_eq_of_lt h]
  split <;> omega

theorem peek_header_size_fst (s : Stream) :
    (peek_header_size s).1 = file_header_size s.data := by
  simp only [peek_header_size]
  rw [fread_zeros 4 4 1 _ rfl]
  simp only [pad_to, le_uint_append_zeros]
  rfl

theorem peek_header_size_data (s : Stream) : (peek_header_size s).2.data = s.data := rfl

theorem read_headers_eq (s : Stream) :
    (read_headers s).1 = ⟨pad_to 2 (s.data.take 2), pad_to 4 ((s.data.drop 2).take 4),
        pad_to 4 ((s.data.drop 6).take 4), pad_to 4 ((s.data.drop 10).take 4)⟩
      ∧ (read_headers s).2.1 = ⟨pad_to 40 ((s.data.drop 14).take 40)⟩
      ∧ rest (read_headers s).2.2 = s.data.drop 54 := by
  have h0 : rest (fseek_set s 0) = s.data := by simp [rest, fseek_set]
  simp only [read_headers]
  refine ⟨?_, ?_, ?_⟩
  · simp only [fread_zeros 2 2 1 _ rfl, fread_zeros 4 4 1 _ rfl, fread_rest, h0, List.drop_drop]
  · simp only [fread_zeros 40 1 40 _ rfl, fread_rest, h0, List.drop_drop]
  · simp only [fread_rest, h0, List.drop_drop]

/-- The run of `main` on an input whose two header checks pass, in terms of the file. -/
theorem main_accepted_header (a : Args) (d : List Byte) (hargc : a.argc = 4)
    (hin : a.input = some d) (h40 : file_header_size d = 40) (h1 : file_bit_count d = 1) :
    main a =
      if 4 * file_colors_used d ≤ a.stack then
        match a.key with
        | none => ⟨some 5, none⟩
        | some k =>
          if k.length ≠ file_image_data_size d then ⟨some 6, none⟩
          else if 4 * file_colors_used d + file_raw_width d ≤ a.stack then
            if a.writable = false then ⟨some 7, none⟩
            else if file_stack_need d ≤ a.stack then
              match row_loop (file_raw_width d) (file_table_width d) (file_height d)
                  (zeros (file_raw_width d)) (zeros (file_table_width d)) ⟨k, 0⟩
                  ⟨d, file_pixel_offset d⟩ [] with
              | some o => ⟨some 0, some (file_head d ++ o)⟩
              | none => ⟨none, some (file_head d)⟩
            else ⟨none, some (file_head d)⟩
          else ⟨none, none⟩
      else ⟨none, none⟩ := by
  obtain ⟨hfh, hih, hrest⟩ := read_headers_eq (peek_header_size ⟨d, 0⟩).2
  rw [peek_header_size_data] at hfh hih hrest
  simp only at hfh hih hrest
  have hbc : (read_headers (peek_header_size ⟨d, 0⟩).2).2.1.bit_count = 1 := by
    rw [hih]
    simp only [bitmap_info_header_t.bit_count]
    rw [field_pad_to, field_take_drop d 14 40 14 2 (by omega)]
    exact h1
  have hcu : (read_headers (peek_header_size ⟨d, 0⟩).2).2.1.colors_used = file_colors_used d := by
    rw [hih]
    simp only [bitmap_info_header_t.colors_used]
    rw [field_pad_to, field_take_drop d 14 40 32 4 (by omega)]
    rfl
  have hw : (read_headers (peek_header_size ⟨d, 0⟩).2).2.1.px_width = file_px_width d := by
    rw [hih]
    simp only [bitmap_info_header_t.px_width]
    rw [field_pad_to, field_take_drop d 14 40 4 4 (by omega)]
    rfl
  have hh : to_uint32 (read_headers (peek_header_size ⟨d, 0⟩).2).2.1.px_height = file_height d := by
    rw [hih]
    simp only [bitmap_info_header_t.px_height]
    rw [field_pad_to, field_take_drop d 14 40 8 4 (by omega),
      to_uint32_to_int32 _ (by simpa using field_lt d (14 + 8) 4)]
    rfl
  have hp : (peek_header_size ⟨d, 0⟩).1 = 40 := by rw [peek_header_size_fst]; exact h40
  have hc1 : (fread (zeros (file_colors_used d * 4)) 4 (file_colors_used d)
      (read_headers (peek_header_size ⟨d, 0⟩).2).2.2).1
      = pad_to (4 * file_colors_used d) ((d.drop 54).take (4 * file_colors_used d)) := by
    rw [fread_zeros _ 4 _ _ (Nat.mul_comm _ _), hrest, Nat.mul_comm]
  have hc2 : rest (fread (zeros (file_colors_used d * 4)) 4 (file_colors_used d)
      (read_headers (peek_header_size ⟨d, 0⟩).2).2.2).2
      = rest ⟨d, file_pixel_offset d⟩ := by
    rw [fread_rest, hrest, List.drop_drop]
    rfl
  have e2 : ∀ l : List Byte, (pad_to 2 (l.take 2)).take (2 * 1) = pad_to 2 (l.take 2) := fun l =>
    List.take_of_length_le (by rw [pad_to_length _ _ (by simp)])
  have e4 : ∀ l : List Byte, (pad_to 4 (l.take 4)).take (4 * 1) = pad_to 4 (l.take 4) := fun l =>
    List.take_of_length_le (by rw [pad_to_length _ _ (by simp)])
  have e40 : ∀ l : List Byte, (pad_to 40 (l.take 40)).take (40 * 1) = pad_to 40 (l.take 40) :=
    fun l => List.take_of_length_le (by rw [pad_to_length _ _ (by simp)])
  have ec : ∀ (n : Nat) (l : List Byte), (pad_to (4 * n) (l.take (4 * n))).take (4 * n)
      = pad_to (4 * n) (l.take (4 * n)) := fun n l =>
    List.take_of_length_le (by rw [pad_to_length _ _ (by simp)])
  have hhead : fwrite (fread (zeros (file_colors_used d * 4)) 4 (file_colors_used d)
        (read_headers (peek_header_size ⟨d, 0⟩).2).2.2).1 4 (file_colors_used d)
      (fwrite (read_headers (peek_header_size ⟨d, 0⟩).2).2.1.bytes 40 1
        (fwrite (read_headers (peek_header_size ⟨d, 0⟩).2).1.offset_bits 4 1
          (fwrite (read_headers (peek_header_size ⟨d, 0⟩).2).1.reserved 4 1
            (fwrite (read_headers (peek_header_size ⟨d, 0⟩).2).1.size 4 1
              (fwrite (read_headers (peek_header_size ⟨d, 0⟩).2).1.type 2 1 [])))))
      = file_head d := by
    rw [hc1, hfh, hih]
    simp only [fwrite, e2, e4, e40, ec, List.nil_append, file_head, List.append_assoc]
  simp only [main, hargc, hin, hp, hbc, ne_eq, not_true_eq_false, if_false, transform, hcu, hw,
    hh, ftell_end, hhead, fits, Nat.zero_add, decide_eq_false_iff_not]
  have em : file_colors_used d * 4 = 4 * file_colors_used d := Nat.mul_comm _ _
  simp only [em, file_image_data_size, file_raw_width, file_table_width, file_stack_need]
  by_cases hcf : 4 * file_colors_used d ≤ a.stack
  swap
  · simp only [hcf, not_false_eq_true, if_true, if_false]
  simp only [hcf, not_true_eq_false, if_true, if_false]
  cases hk : a.key with
  | none => rfl
  | some k =>
    simp only
    by_cases hsz : k.length
        = raw_data_width (file_px_width d) * file_height d % 4294967296
    swap
    · simp only [hsz, not_false_eq_true, if_true]
    simp only [hsz, not_true_eq_false, if_false]
    by_cases hkf : 4 * file_colors_used d + raw_data_width (file_px_width d) ≤ a.stack
    swap
    · simp only [hkf, not_false_eq_true, if_true, if_false]
    simp only [hkf, not_true_eq_false, if_true, if_false]
    by_cases hwr : a.writable = false
    · simp only [hwr, if_true]
    simp only [hwr, if_false]
    by_cases hpf : 4 * file_colors_used d + raw_data_width (file_px_width d)
        + GET_PADDING (raw_data_width (file_px_width d)) ≤ a.stack
    swap
    · simp only [hpf, not_false_eq_true, if_true, if_false]
    simp only [hpf, not_true_eq_false, if_true, if_false]
    have hc2' : rest (fread (zeros (4 * file_colors_used d)) 4 (file_colors_used d)
        (read_headers (peek_header_size ⟨d, 0⟩).2).2.2).2
        = rest ⟨d, file_pixel_offset d⟩ := by rw [← em]; exact hc2
    rw [row_loop_congr _ _ _ _ _ (fseek_set ⟨k, 0⟩ 0) _ ⟨k, 0⟩ ⟨d, file_pixel_offset d⟩ _ rfl hc2',
      row_loop_acc]
    cases row_loop (raw_data_width (file_px_width d))
        (GET_PADDING (raw_data_width (file_px_width d))) (file_height d)
        (zeros (raw_data_width (file_px_width d)))
        (zeros (GET_PADDING (raw_data_width (file_px_width d)))) ⟨k, 0⟩
        ⟨d, file_pixel_offset d⟩ [] <;> rfl

theorem read_headers_bit_count (d : List Byte) :
    (read_headers (peek_header_size ⟨d, 0⟩).2).2.1.bit_count = file_bit_count d := by
  rw [(read_headers_eq (peek_header_size ⟨d, 0⟩).2).2.1, peek_header_size_data]
  simp only [bitmap_info_header_t.bit_count]
  rw [field_pad_to, field_take_drop d 14 40 14 2 (by omega)]
  rfl

theorem main_wrong_header_size (a : Args) (d : List Byte) (hargc : a.argc = 4)
    (hin : a.input = some d) (h40 : file_header_size d ≠ 40) : main a = ⟨some 3, none⟩ := by
  have hp : (peek_header_size ⟨d, 0⟩).1 ≠ 40 := by rw [peek_header_size_fst]; exact h40
  simp [main, hargc, hin, hp]

theorem main_wrong_bit_count (a : Args) (d : List Byte) (hargc : a.argc = 4)
    (hin : a.input = some d) (h40 : file_header_size d = 40) (h1 : file_bit_count d ≠ 1) :
    main a = ⟨some 4, none⟩ := by
  have hp : (peek_header_size ⟨d, 0⟩).1 = 40 := by rw [peek_header_size_fst]; exact h40
  have hb := read_headers_bit_count d
  simp [main, hargc, hin, hp, hb, h1]

/-- What an exit code 0 with output `O` says about the run. -/
theorem main_zero_inv (a : Args) (d O : List Byte) (hin : a.input = some d)
    (h : main a = ⟨some 0, some O⟩) :
    a.argc = 4 ∧ file_header_size d = 40 ∧ file_bit_count d = 1 ∧ a.writable = true
      ∧ ∃ k o, a.key = some k ∧ k.length = file_image_data_size d
        ∧ row_loop (file_raw_width d) (file_table_width d) (file_height d)
            (zeros (file_raw_width d)) (zeros (file_table_width d)) ⟨k, 0⟩
            ⟨d, file_pixel_offset d⟩ [] = some o
        ∧ O = file_head d ++ o := by
  have hargc : a.argc = 4 := by
    by_contra hne
    simp [main, hne] at h
  have h40 : file_header_size d = 40 := by
    by_contra hne
    rw [main_wrong_header_size a d hargc hin hne] at h
    simp at h
  have h1 : file_bit_count d = 1 := by
    by_contra hne
    rw [main_wrong_bit_count a d hargc hin h40 hne] at h
    simp at h
  rw [main_accepted_header a d hargc hin h40 h1] at h
  by_cases hcf : 4 * file_colors_used d ≤ a.stack
  swap
  · simp [hcf] at h
  rw [if_pos hcf] at h
  cases hk : a.key with
  | none => simp [hk] at h
  | some k =>
    simp only [hk] at h
    by_cases hsz : k.length = file_image_data_size d
    swap
    · simp [hsz] at h
    rw [if_neg (not_not.mpr hsz)] at h
    by_cases hkf : 4 * file_colors_used d + file_raw_width d ≤ a.stack
    swap
    · simp [hkf] at h
    rw [if_pos hkf] at h
    by_cases hwr : a.writable = false
    · simp [hwr] at h
    rw [if_neg hwr] at h
    by_cases hpf : file_stack_need d ≤ a.stack
    swap
    · simp [hpf] at h
    rw [if_pos hpf] at h
    cases ho : row_loop (file_raw_width d) (file_table_width d) (file_height d)
        (zeros (file_raw_width d)) (zeros (file_table_width d)) ⟨k, 0⟩
        ⟨d, file_pixel_offset d⟩ [] with
    | none => simp [ho] at h
    | some o =>
      simp only [ho, Result.mk.injEq, Option.some.injEq, true_and] at h
      exact ⟨hargc, h40, h1, by simpa using hwr, k, o, rfl, hsz, ho, h.symm⟩

/-- A run that ends with code 0 had room on the stack for its three arrays. -/
theorem main_zero_fits (a : Args) (d O : List Byte) (hin : a.input = some d)
    (h : main a = ⟨some 0, some O⟩) : file_stack_need d ≤ a.stack := by
  obtain ⟨hargc, h40, h1, _, _⟩ := main_zero_inv a d O hin h
  rw [main_accepted_header a d hargc hin h40 h1] at h
  by_contra hpf
  by_cases hcf : 4 * file_colors_used d ≤ a.stack
  swap
  · simp [hcf] at h
  rw [if_pos hcf] at h
  cases hk : a.key with
  | none => simp [hk] at h
  | some k =>
    simp only [hk] at h
    by_cases hsz : k.length = file_image_data_size d
    swap
    · simp [hsz] at h
    rw [if_neg (not_not.mpr hsz)] at h
    by_cases hkf : 4 * file_colors_used d + file_raw_width d ≤ a.stack
    swap
    · simp [hkf] at h
    rw [if_pos hkf] at h
    by_cases hwr : a.writable = false
    · simp [hwr] at h
    rw [if_neg hwr, if_neg hpf] at h
    simp at h

theorem file_head_of_54 (d : List Byte) (h : 54 ≤ d.length) :
    file_head d = d.take 54
      ++ pad_to (4 * file_colors_used d) ((d.drop 54).take (4 * file_colors_used d)) := by
  unfold file_head
  rw [pad_to_of_length 2 _ (by simp; omega), pad_to_of_length 4 _ (by simp; omega),
    pad_to_of_length 4 _ (by simp; omega), pad_to_of_length 4 _ (by simp; omega),
    pad_to_of_length 40 _ (by simp; omega)]
  have e : d.take 54 = d.take 2 ++ (d.drop 2).take 4 ++ (d.drop 6).take 4 ++ (d.drop 10).take 4
      ++ (d.drop 14).take 40 := by
    rw [← List.take_add, ← List.take_add, ← List.take_add, ← List.take_add]
  rw [e]

theorem file_head_of_le (d : List Byte) (h : file_pixel_offset d ≤ d.length) :
    file_head d = d.take (file_pixel_offset d) := by
  unfold file_pixel_offset at h
  rw [file_head_of_54 d (by omega), pad_to_of_length _ _ (by simp; omega), ← List.take_add]
  rfl

theorem file_head_length (d : List Byte) : (file_head d).length = file_pixel_offset d := by
  unfold file_head file_pixel_offset
  simp only [List.length_append]
  rw [pad_to_length 2 _ (by simp), pad_to_length 4 _ (by simp), pad_to_length 4 _ (by simp),
    pad_to_length 4 _ (by simp), pad_to_length 40 _ (by simp), pad_to_length _ _ (by simp)]

theorem field_append_left (l₁ l₂ : List Byte) (off len : Nat) (h : off + len ≤ l₁.length) :
    field (l₁ ++ l₂) off len = field l₁ off len := by
  unfold field
  rw [List.drop_append_of_le_length (by omega), List.take_append_of_le_length]
  rw [List.length_drop]
  omega

theorem field_take (d : List Byte) (n off len : Nat) (h : off + len ≤ n) :
    field (d.take n) off len = field d off len := by
  have := field_take_drop d 0 n off len h
  simpa using this

/-! ## The scenario of the specification and other concrete runs -/

theorem main_args22 : main args22 = ⟨some 0, some out22⟩ := by decide

theorem img22_layout : img22.length
    = 54 + 4 * file_colors_used img22 + file_table_width img22 * file_height img22 := by decide

theorem info_header_of_colors_used (d : List Byte) :
    (info_header_of d).colors_used = file_colors_used d := by
  unfold info_header_of
  rw [(read_headers_eq ⟨d, 0⟩).2.1]
  simp only [bitmap_info_header_t.colors_used]
  rw [field_pad_to, field_take_drop d 14 40 32 4 (by omega)]
  rfl

theorem file_head_eq (d : List Byte) :
    file_head d = (file_header_of d).type ++ (file_header_of d).size
      ++ (file_header_of d).reserved ++ (file_header_of d).offset_bits
      ++ (info_header_of d).bytes ++ indexed_color_of d := by
  unfold indexed_color_of
  rw [info_header_of_colors_used]
  unfold file_header_of info_header_of
  obtain ⟨h1, h2, h3⟩ := read_headers_eq ⟨d, 0⟩
  rw [fread_zeros _ 4 _ _ (Nat.mul_comm _ _), h3, h1, h2, Nat.mul_comm]
  rfl

theorem file_height_of_nonneg (d : List Byte) (h : 0 ≤ file_px_height d) :
    file_height d = (file_px_height d).toNat := by
  have hlt : field d 22 4 < 4294967296 := by simpa using field_lt d 22 4
  unfold file_px_height to_int32 at h ⊢
  unfold file_height
  rw [Nat.mod_eq_of_lt hlt] at h ⊢
  by_cases hc : field d 22 4 < 2147483648
  · rw [if_pos hc]
    rfl
  · rw [if_neg hc] at h
    omega

theorem file_header_size_of_short (d : List Byte) (h : d.length ≤ 14) :
    file_header_size d = 0 := by
  unfold file_header_size field
  rw [List.drop_eq_nil_of_le h]
  rfl

theorem raw_data_width_of_small (w : Int) (h0 : 0 ≤ w) (h : w + 7 < 2147483648) :
    raw_data_width w = (w.toNat + 7) / 8 := by
  obtain ⟨n, rfl⟩ := Int.eq_ofNat_of_zero_le h0
  have hn : n + 7 < 2147483648 := by omega
  unfold raw_data_width add_int32 to_int32 to_uint32
  have e1 : (((n : Int) + 7) % 4294967296).toNat = n + 7 := by omega
  rw [e1, Nat.mod_eq_of_lt (by omega), if_pos hn]
  have e2 : Int.tdiv ((n + 7 : Nat) : Int) 8 = ((n + 7) / 8 : Nat) := by
    rw [Int.tdiv_eq_ediv (by omega) (by omega)]
    rfl
  rw [e2]
  simp only [Int.toNat_ofNat]
  omega

theorem raw_data_width_of_large (w : Int) (h : 2147483648 ≤ w + 7) (h' : w < 2147483648) :
    raw_data_width w = 4026531840 ∨ raw_data_width w = 4026531841 := by
  have hw : w = 2147483641 ∨ w = 2147483642 ∨ w = 2147483643 ∨ w = 2147483644
      ∨ w = 2147483645 ∨ w = 2147483646 ∨ w = 2147483647 := by omega
  rcases hw with rfl | rfl | rfl | rfl | rfl | rfl | rfl <;> decide

theorem to_int32_lt (n : Nat) : to_int32 n < 2147483648 := by
  unfold to_int32
  split <;> omega

/-- A length one off the exact product is never the product as a `uint32_t` holds it,
be the width `r` the exact `c` or what the wrapped addition makes of it. -/
theorem truncated_product_ne (r c h k : Nat) (hh : h < 2147483648)
    (hr : r = c ∨ (c = 268435456 ∧ (r = 4026531840 ∨ r = 4026531841)))
    (hlen : k + 1 = c * h ∨ k = c * h + 1) : k ≠ r * h % 4294967296 := by
  rcases hr with rfl | ⟨rfl, hr⟩
  · generalize r * h = P at hlen ⊢
    omega
  · intro hk
    have hlt : k < 4294967296 := by rw [hk]; exact Nat.mod_lt _ (by decide)
    have hle : h ≤ 16 := by omega
    rcases hr with rfl | rfl
    · interval_cases h <;> omega
    · interval_cases h <;> omega

/-! ## Exit codes -/

theorem first_failing_check_le (a : Args) : first_failing_check a ≤ 7 := by
  unfold first_failing_check
  repeat' split
  all_goals omega

/-- The first four checks come before every array: a run on which one of them fails ends
with its code. -/
theorem main_of_early_check (a : Args) (h : first_failing_check a ≠ 0)
    (h4 : first_failing_check a ≤ 4) : main a = ⟨some (first_failing_check a), none⟩ := by
  unfold first_failing_check at h h4 ⊢
  by_cases hargc : a.argc = 4
  swap
  · simp [main, hargc]
  rw [if_neg (not_not.mpr hargc)] at h h4 ⊢
  cases hin : a.input with
  | none => simp [main, hargc, hin]
  | some d =>
    simp only [hin] at h h4 ⊢
    by_cases h40 : file_header_size d = 40
    swap
    · rw [if_pos h40]
      exact main_wrong_header_size a d hargc hin h40
    rw [if_neg (not_not.mpr h40)] at h h4 ⊢
    by_cases h1 : file_bit_count d = 1
    swap
    · rw [if_pos h1]
      exact main_wrong_bit_count a d hargc hin h40 h1
    rw [if_neg (not_not.mpr h1)] at h h4
    cases hk : a.key with
    | none => simp [hk] at h4
    | some k =>
      simp only [hk] at h h4
      by_cases hsz : k.length = file_image_data_size d
      swap
      · simp [hsz] at h4
      rw [if_neg (not_not.mpr hsz)] at h h4
      by_cases hwr : a.writable = false
      · simp [hwr] at h4
      · rw [if_neg hwr] at h
        exact absurd rfl h

/-- A run whose headers are accepted, in terms of its first failing check. -/
theorem main_of_accepted_header (a : Args) (d : List Byte) (hin : a.input = some d)
    (h5 : first_failing_check a = 0 ∨ 5 ≤ first_failing_check a) :
    a.argc = 4 ∧ file_header_size d = 40 ∧ file_bit_count d = 1
      ∧ (first_failing_check a = 5 → a.key = none)
      ∧ (first_failing_check a = 6 →
          ∃ k, a.key = some k ∧ k.length ≠ file_image_data_size d)
      ∧ (first_failing_check a = 7 →
          ∃ k, a.key = some k ∧ k.length = file_image_data_size d ∧ a.writable = false)
      ∧ (first_failing_check a = 0 →
          ∃ k, a.key = some k ∧ k.length = file_image_data_size d ∧ a.writable = true) := by
  unfold first_failing_check at h5 ⊢
  by_cases hargc : a.argc = 4
  swap
  · simp [hargc] at h5
  rw [if_neg (not_not.mpr hargc)] at h5 ⊢
  simp only [hin] at h5 ⊢
  by_cases h40 : file_header_size d = 40
  swap
  · simp [h40] at h5
  rw [if_neg (not_not.mpr h40)] at h5 ⊢
  by_cases h1 : file_bit_count d = 1
  swap
  · simp [h1] at h5
  rw [if_neg (not_not.mpr h1)] at h5 ⊢
  refine ⟨hargc, h40, h1, ?_⟩
  cases hk : a.key with
  | none => simp
  | some k =>
    simp only
    by_cases hsz : k.length = file_image_data_size d
    swap
    · rw [if_pos hsz]
      simp [hsz]
    rw [if_neg (not_not.mpr hsz)]
    by_cases hwr : a.writable = false
    · rw [if_pos hwr]
      simp [hsz, hwr]
    · rw [if_neg hwr]
      simp [hsz, hwr]

/-- A run on which the key file cannot be opened ends with code 5 when the color table
fits the stack. -/
theorem main_no_key (a : Args) (d : List Byte) (hargc : a.argc = 4) (hin : a.input = some d)
    (h40 : file_header_size d = 40) (h1 : file_bit_count d = 1) (hk : a.key = none)
    (hcf : 4 * file_colors_used d ≤ a.stack) : main a = ⟨some 5, none⟩ := by
  rw [main_accepted_header a d hargc hin h40 h1, if_pos hcf]
  simp only [hk]

/-- A run with a key of another length than asked for ends with code 6 when the color
table fits the stack. -/
theorem main_key_length (a : Args) (d k : List Byte) (hargc : a.argc = 4)
    (hin : a.input = some d) (h40 : file_header_size d = 40) (h1 : file_bit_count d = 1)
    (hk : a.key = some k) (hsz : k.length ≠ file_image_data_size d)
    (hcf : 4 * file_colors_used d ≤ a.stack) : main a = ⟨some 6, none⟩ := by
  rw [main_accepted_header a d hargc hin h40 h1, if_pos hcf]
  simp only [hk]
  rw [if_pos hsz]

/-- A run that cannot create its output ends with code 7 when the color table and the key
block fit the stack. -/
theorem main_not_writable (a : Args) (d k : List Byte) (hargc : a.argc = 4)
    (hin : a.input = some d) (h40 : file_header_size d = 40) (h1 : file_bit_count d = 1)
    (hk : a.key = some k) (hsz : k.length = file_image_data_size d)
    (hwr : a.writable = false)
    (hkf : 4 * file_colors_used d + file_raw_width d ≤ a.stack) : main a = ⟨some 7, none⟩ := by
  rw [main_accepted_header a d hargc hin h40 h1, if_pos (by omega)]
  simp only [hk]
  rw [if_neg (not_not.mpr hsz), if_pos hkf, if_pos hwr]

/-- A run that passes every check: it is killed before the output is opened when the key
block does not fit the stack, killed after the headers are written when the padded row
does not fit, and otherwise its result is that of the row loop. -/
theorem main_pass (a : Args) (d k : List Byte) (hargc : a.argc = 4)
    (hin : a.input = some d) (hk : a.key = some k) (h40 : file_header_size d = 40)
    (h1 : file_bit_count d = 1) (hsz : k.length = file_image_data_size d)
    (hwr : a.writable = true) :
    main a =
      if file_stack_need d ≤ a.stack then
        match row_loop (file_raw_width d) (file_table_width d) (file_height d)
            (zeros (file_raw_width d)) (zeros (file_table_width d)) ⟨k, 0⟩
            ⟨d, file_pixel_offset d⟩ [] with
        | some o => ⟨some 0, some (file_head d ++ o)⟩
        | none => ⟨none, some (file_head d)⟩
      else if 4 * file_colors_used d + file_raw_width d ≤ a.stack then
        ⟨none, some (file_head d)⟩
      else ⟨none, none⟩ := by
  rw [main_accepted_header a d hargc hin h40 h1]
  simp only [hk]
  by_cases hpf : file_stack_need d ≤ a.stack
  · have hkf : 4 * file_colors_used d + file_raw_width d ≤ a.stack := by
      unfold file_stack_need at hpf
      omega
    have hcf : 4 * file_colors_used d ≤ a.stack := by omega
    simp [hcf, hkf, hpf, hsz, hwr]
  · by_cases hkf : 4 * file_colors_used d + file_raw_width d ≤ a.stack
    · have hcf : 4 * file_colors_used d ≤ a.stack := by omega
      simp [hcf, hkf, hpf, hsz, hwr]
    · by_cases hcf : 4 * file_colors_used d ≤ a.stack
      · simp only [hcf, hkf, hpf, hsz, if_true, if_false, not_true_eq_false, ne_eq]
      · simp only [hcf, hkf, hpf, if_false]

/-- A run on which a check fails either ends with the code of the first failing check or,
when that check is one of the last three, is killed before the output is opened. -/
theorem main_of_failing_check (a : Args) (h : first_failing_check a ≠ 0) :
    main a = ⟨some (first_failing_check a), none⟩ ∨ main a = ⟨none, none⟩ := by
  by_cases h4 : first_failing_check a ≤ 4
  · exact Or.inl (main_of_early_check a h h4)
  have hle := first_failing_check_le a
  cases hin : a.input with
  | none =>
    exfalso
    apply h4
    unfold first_failing_check
    simp only [hin]
    split <;> omega
  | some d =>
    obtain ⟨hargc, h40, h1, c5, c6, c7, _⟩ := main_of_accepted_header a d hin (Or.inr (by omega))
    by_cases hcf : 4 * file_colors_used d ≤ a.stack
    swap
    · right
      rw [main_accepted_header a d hargc hin h40 h1, if_neg hcf]
    have hcases : first_failing_check a = 5 ∨ first_failing_check a = 6
        ∨ first_failing_check a = 7 := by omega
    rcases hcases with e | e | e
    · rw [e]
      exact Or.inl (main_no_key a d hargc hin h40 h1 (c5 e) hcf)
    · obtain ⟨k, hk, hsz⟩ := c6 e
      rw [e]
      exact Or.inl (main_key_length a d k hargc hin h40 h1 hk hsz hcf)
    · obtain ⟨k, hk, hsz, hwr⟩ := c7 e
      by_cases hkf : 4 * file_colors_used d + file_raw_width d ≤ a.stack
      · rw [e]
        exact Or.inl (main_not_writable a d k hargc hin h40 h1 hk hsz hwr hkf)
      · right
        rw [main_accepted_header a d hargc hin h40 h1, if_pos hcf]
        simp only [hk]
        rw [if_neg (not_not.mpr hsz), if_neg hkf]

/-- A run on which a check fails, in full: it ends with the code of the first failing check
when the arrays declared before that check fit the stack, and is killed before the output
is created when they do not. -/
theorem main_of_failing_check_stack (a : Args) (d : List Byte) (hin : a.input = some d)
    (h : first_failing_check a ≠ 0) :
    main a =
      if first_failing_check a ≤ 4 ∨ (4 * file_colors_used d ≤ a.stack
          ∧ (first_failing_check a ≠ 7
            ∨ 4 * file_colors_used d + file_raw_width d ≤ a.stack)) then
        ⟨some (first_failing_check a), none⟩
      else ⟨none, none⟩ := by
  by_cases h4 : first_failing_check a ≤ 4
  · rw [if_pos (Or.inl h4)]
    exact main_of_early_check a h h4
  have hle := first_failing_check_le a
  obtain ⟨hargc, h40, h1, c5, c6, c7, _⟩ := main_of_accepted_header a d hin (Or.inr (by omega))
  by_cases hcf : 4 * file_colors_used d ≤ a.stack
  swap
  · rw [if_neg (by
      rintro (h' | ⟨h', _⟩)
      · exact h4 h'
      · exact hcf h'), main_accepted_header a d hargc hin h40 h1, if_neg hcf]
  have hcases : first_failing_check a = 5 ∨ first_failing_check a = 6
      ∨ first_failing_check a = 7 := by omega
  rcases hcases with e | e | e
  · rw [if_pos (Or.inr ⟨hcf, Or.inl (by omega)⟩), e]
    exact main_no_key a d hargc hin h40 h1 (c5 e) hcf
  · obtain ⟨k, hk, hsz⟩ := c6 e
    rw [if_pos (Or.inr ⟨hcf, Or.inl (by omega)⟩), e]
    exact main_key_length a d k hargc hin h40 h1 hk hsz hcf
  · obtain ⟨k, hk, hsz, hwr⟩ := c7 e
    by_cases hkf : 4 * file_colors_used d + file_raw_width d ≤ a.stack
    · rw [if_pos (Or.inr ⟨hcf, Or.inr hkf⟩), e]
      exact main_not_writable a d k hargc hin h40 h1 hk hsz hwr hkf
    · rw [if_neg (by
        rintro (h' | ⟨_, h' | h'⟩)
        · exact h4 h'
        · exact h' e
        · exact hkf h'), main_accepted_header a d hargc hin h40 h1, if_pos hcf]
      simp only [hk]
      rw [if_neg (not_not.mpr hsz), if_neg hkf]

/-- A run on which no check fails: what `main_pass` says of it. -/
theorem main_of_no_failing_check (a : Args) (h : first_failing_check a = 0) :
    ∃ d k, a.argc = 4 ∧ a.input = some d ∧ a.key = some k ∧ file_header_size d = 40
      ∧ file_bit_count d = 1 ∧ k.length = file_image_data_size d ∧ a.writable = true
      ∧ main a =
        if file_stack_need d ≤ a.stack then
          match row_loop (file_raw_width d) (file_table_width d) (file_height d)
              (zeros (file_raw_width d)) (zeros (file_table_width d)) ⟨k, 0⟩
              ⟨d, file_pixel_offset d⟩ [] with
          | some o => ⟨some 0, some (file_head d ++ o)⟩
          | none => ⟨none, some (file_head d)⟩
        else if 4 * file_colors_used d + file_raw_width d ≤ a.stack then
          ⟨none, some (file_head d)⟩
        else ⟨none, none⟩ := by
  cases hin : a.input with
  | none =>
    exfalso
    unfold first_failing_check at h
    simp only [hin] at h
    split at h <;> omega
  | some d =>
    obtain ⟨hargc, h40, h1, _, _, _, c0⟩ := main_of_accepted_header a d hin (Or.inl h)
    obtain ⟨k, hk, hsz, hwr⟩ := c0 h
    exact ⟨d, k, hargc, rfl, hk, h40, h1, hsz, hwr,
      main_pass a d k hargc hin hk h40 h1 hsz hwr⟩

theorem to_int32_ge (n : Nat) : -2147483648 ≤ to_int32 n := by
  unfold to_int32
  split <;> omega

theorem add_int32_seven (w : Int) (hlo : -2147483648 ≤ w) (hhi : w < 2147483648) :
    add_int32 w 7 = if w + 7 < 2147483648 then w + 7 else w + 7 - 4294967296 := by
  unfold add_int32 to_int32 to_uint32
  split <;> split <;> omega

theorem tdiv_eight (s : Int) : Int.tdiv s 8 = if 0 ≤ s then s / 8 else -((-s) / 8) := by
  split
  · rw [Int.tdiv_eq_ediv (by assumption) (by omega)]
  · have : s = -(-s) := by omega
    rw [this, Int.neg_tdiv, Int.tdiv_eq_ediv (by omega) (by omega)]
    simp

/-- Outside the widths -38 .. -15 the unpadded width leaves room for the padding. -/
theorem raw_data_width_le (w : Int) (hlo : -2147483648 ≤ w) (hhi : w < 2147483648)
    (hw : w < -38 ∨ -15 < w) : raw_data_width w ≤ 4294967292 := by
  unfold raw_data_width
  rw [add_int32_seven w hlo hhi, tdiv_eight]
  unfold to_uint32
  split <;> split <;> omega

theorem GET_PADDING_of_le (u : Nat) (hu : u ≤ 4294967292) :
    GET_PADDING u % 4 = 0 ∧ u ≤ GET_PADDING u ∧ GET_PADDING u < u + 4
      ∧ (u % 4 = 0 → GET_PADDING u = u) := by
  unfold GET_PADDING
  split <;> omega

theorem file_raw_le_table (d : List Byte)
    (hw : file_px_width d < -38 ∨ -15 < file_px_width d) :
    file_raw_width d ≤ file_table_width d :=
  (GET_PADDING_of_le _ (raw_data_width_le _ (to_int32_ge _) (to_int32_lt _) hw)).2.1

/-! ## Runs of the row loop that complete, and runs that do not -/

theorem xor_visible_of_lt (r k : List Byte) (h : r.length < k.length) : xor_visible r k = none := by
  cases hx : xor_visible r k with
  | none => rfl
  | some r' =>
    have := xor_visible_le r k r' hx
    omega

/-- With a row buffer shorter than the key block the first iteration stores outside it. -/
theorem row_loop_fault (rw tw : Nat) (hw : tw < rw) (n : Nat) (hn : 0 < n) (kb pr : List Byte)
    (fk fi : Stream) (fout : List Byte) (hkb : kb.length = rw) (hpr : pr.length = tw) :
    row_loop rw tw n kb pr fk fi fout = none := by
  cases n with
  | zero => omega
  | succ n =>
    have hk : (fread kb 1 rw fk).1.length = rw := by
      rw [fread_length _ _ _ _ (by simpa using hkb), Nat.one_mul]
    have hp : (fread pr 1 tw fi).1.length = tw := by
      rw [fread_length _ _ _ _ (by simpa using hpr), Nat.one_mul]
    simp only [row_loop, xor_visible_of_lt _ _ (by omega : (fread pr 1 tw fi).1.length
      < (fread kb 1 rw fk).1.length)]

theorem row_loop_total (rw tw n : Nat) (hw : n = 0 ∨ rw ≤ tw) (kb pr : List Byte)
    (fk fi : Stream) (fout : List Byte) (hkb : kb.length = rw) (hpr : pr.length = tw) :
    ∃ out, row_loop rw tw n kb pr fk fi fout = some out := by
  rcases hw with rfl | hw
  · exact ⟨fout, by simp [row_loop]⟩
  · exact row_loop_of_le rw tw hw n kb pr fk fi fout hkb hpr

theorem row_loop_fits (rw tw n : Nat) (kb pr : List Byte) (fk fi : Stream) (fout out : List Byte)
    (hkb : kb.length = rw) (hpr : pr.length = tw)
    (h : row_loop rw tw n kb pr fk fi fout = some out) : n = 0 ∨ rw ≤ tw := by
  by_contra hc
  rw [row_loop_fault rw tw (by omega) n (by omega) kb pr fk fi fout hkb hpr] at h
  simp at h

/-- A run on which no check fails, whose arrays fit the stack and whose rows fit the row
buffer ends with code 0. -/
theorem main_of_fitting_rows (a : Args) (d : List Byte) (hin : a.input = some d)
    (hc : first_failing_check a = 0) (hneed : file_stack_need d ≤ a.stack)
    (hfit : file_height d = 0 ∨ file_raw_width d ≤ file_table_width d) :
    ∃ k rows, a.key = some k
      ∧ row_loop (file_raw_width d) (file_table_width d) (file_height d)
          (zeros (file_raw_width d)) (zeros (file_table_width d)) ⟨k, 0⟩
          ⟨d, file_pixel_offset d⟩ [] = some rows
      ∧ main a = ⟨some 0, some (file_head d ++ rows)⟩ := by
  obtain ⟨d', k, _, hin', hk, _, _, _, _, hm⟩ := main_of_no_failing_check a hc
  rw [hin, Option.some.injEq] at hin'
  subst hin'
  obtain ⟨rows, hrows⟩ := row_loop_total (file_raw_width d) (file_table_width d) (file_height d)
    hfit (zeros (file_raw_width d)) (zeros (file_table_width d)) ⟨k, 0⟩
    ⟨d, file_pixel_offset d⟩ [] (zeros_length _) (zeros_length _)
  exact ⟨k, rows, hk, hrows, by rw [hm, if_pos hneed, hrows]⟩

/-- A run on which no check fails and whose arrays fit the stack, but whose rows do not
fit the row buffer, does not return; it has written the header bytes. -/
theorem main_of_overlong_rows (a : Args) (d : List Byte) (hin : a.input = some d)
    (hc : first_failing_check a = 0) (hneed : file_stack_need d ≤ a.stack)
    (hh : 0 < file_height d) (hw : file_table_width d < file_raw_width d) :
    main a = ⟨none, some (file_head d)⟩ := by
  obtain ⟨d', k, _, hin', _, _, _, _, _, hm⟩ := main_of_no_failing_check a hc
  rw [hin, Option.some.injEq] at hin'
  subst hin'
  rw [hm, if_pos hneed, row_loop_fault _ _ hw _ hh _ _ _ _ _ (zeros_length _) (zeros_length _)]

theorem first_failing_check_of_pass (a : Args) (d k : List Byte) (hargc : a.argc = 4)
    (hin : a.input = some d) (hk : a.key = some k) (h40 : file_header_size d = 40)
    (h1 : file_bit_count d = 1) (hsz : k.length = file_image_data_size d)
    (hwr : a.writable = true) : first_failing_check a = 0 := by
  simp [first_failing_check, hargc, hin, hk, h40, h1, hsz, hwr]

theorem first_failing_check_of_key_length (a : Args) (d k : List Byte) (hargc : a.argc = 4)
    (hin : a.input = some d) (hk : a.key = some k) (h40 : file_header_size d = 40)
    (h1 : file_bit_count d = 1) (hsz : k.length ≠ file_image_data_size d) :
    first_failing_check a = 6 := by
  simp [first_failing_check, hargc, hin, hk, h40, h1, hsz]

theorem file_height_of_neg (d : List Byte) (h : file_px_height d < 0) :
    file_height d = (4294967296 + file_px_height d).toNat := by
  have hlt : field d 22 4 < 4294967296 := by simpa using field_lt d 22 4
  unfold file_px_height to_int32 at h ⊢
  unfold file_height
  rw [Nat.mod_eq_of_lt hlt] at h ⊢
  by_cases hc : field d 22 4 < 2147483648
  · rw [if_pos hc] at h
    omega
  · rw [if_neg hc]
    omega

/-- A row for which the input holds no byte any more is the row buffer as the previous
pass left it (the previous output row, or the initial content before the first pass),
XORed with the key chunk of that row. -/
theorem row_loop_stale (rw tw : Nat) : ∀ (n : Nat) (kb pr : List Byte) (fk fi : Stream)
    (out : List Byte), kb.length = rw → pr.length = tw → rw * n ≤ (rest fk).length →
    row_loop rw tw n kb pr fk fi [] = some out →
    ∀ i, i < n → (rest fi).length ≤ i * tw →
      xor_visible (if i = 0 then pr else (out.drop ((i - 1) * tw)).take tw)
          (((rest fk).drop (i * rw)).take rw)
        = some ((out.drop (i * tw)).take tw)
  | 0, _, _, _, _, _, _, _, _, _, i, hi, _ => by omega
  | n + 1, kb, pr, fk, fi, out, hkb, hpr, hfk, h, i, hi, hfi => by
    obtain ⟨row, o, hx, hlen, ho, rfl⟩ := row_loop_succ rw tw n kb pr fk fi out hpr h
    have hgek : 1 * rw ≤ (rest fk).length := by rw [Nat.mul_succ] at hfk; omega
    have hK : (fread kb 1 rw fk).1 = (rest fk).take rw := by
      rw [fread_full _ _ _ _ (by simpa using hkb) hgek, Nat.one_mul]
    have hKlen : (fread kb 1 rw fk).1.length = rw := by
      rw [fread_length _ _ _ _ (by simpa using hkb), Nat.one_mul]
    have hK2 : rest (fread kb 1 rw fk).2 = (rest fk).drop rw := by rw [fread_rest, Nat.one_mul]
    have hP2 : rest (fread pr 1 tw fi).2 = (rest fi).drop tw := by rw [fread_rest, Nat.one_mul]
    cases i with
    | zero =>
      have hnil : rest fi = [] := List.eq_nil_of_length_eq_zero (by omega)
      have hP : (fread pr 1 tw fi).1 = pr := by
        rw [fread_fst, hnil]
        simp
      rw [hP, hK] at hx
      simp only [if_true, Nat.zero_mul, List.drop_zero]
      rw [hx, ← hlen, List.take_left]
    | succ i =>
      have ih := row_loop_stale rw tw n _ _ _ _ o hKlen hlen
        (by rw [hK2, List.length_drop]; rw [Nat.mul_succ] at hfk; omega) ho i (by omega)
        (by rw [hP2, List.length_drop]; rw [Nat.succ_mul] at hfi; omega)
      have e1 : (i + 1) * tw = row.length + i * tw := by rw [hlen, Nat.succ_mul]; omega
      have e2 : List.drop ((i + 1) * tw) (row ++ o) = List.drop (i * tw) o := by
        rw [e1, List.drop_append]
      have e3 : List.drop ((i + 1) * rw) (rest fk) = List.drop (i * rw) (List.drop rw (rest fk)) := by
        rw [List.drop_drop, Nat.succ_mul, Nat.add_comm]
      rw [if_neg (by omega), e2, e3, ← hK2, Nat.add_sub_cancel]
      cases i with
      | zero =>
        rw [if_pos rfl] at ih
        rw [Nat.zero_mul, List.drop_zero, ← hlen, List.take_left]
        simpa [hlen] using ih
      | succ j =>
        rw [if_neg (by omega), Nat.add_sub_cancel] at ih
        have e4 : (j + 1) * tw = row.length + j * tw := by rw [hlen, Nat.succ_mul]; omega
        have e5 : List.drop ((j + 1) * tw) (row ++ o) = List.drop (j * tw) o := by
          rw [e4, List.drop_append]
        rw [e5]
        exact ih

/-! ## Two inputs that differ in unvalidated fields only -/

theorem field_congr (d₁ d₂ : List Byte) (off len : Nat)
    (h : ∀ i, off ≤ i → i < off + len → d₁[i]? = d₂[i]?) : field d₁ off len = field d₂ off len := by
  unfold field
  congr 1
  apply List.ext_getElem?
  intro n
  rw [List.getElem?_take, List.getElem?_take, List.getElem?_drop, List.getElem?_drop]
  split
  · exact h _ (by omega) (by omega)
  · rfl

theorem zeros_append (m n : Nat) : zeros m ++ zeros n = zeros (m + n) := by
  unfold zeros
  rw [List.replicate_add]

theorem pad_to_append (a b : Nat) (d : List Byte) :
    pad_to a (d.take a) ++ pad_to b ((d.drop a).take b) = pad_to (a + b) (d.take (a + b)) := by
  by_cases h : a ≤ d.length
  · rw [pad_to_of_length a _ (by simp; omega), List.take_add]
    unfold pad_to
    rw [List.append_assoc]
    congr 2
    simp only [List.length_append, List.length_take, List.length_drop]
    congr 1
    omega
  · have h1 : d.take a = d := List.take_of_length_le (by omega)
    have h2 : d.drop a = [] := List.drop_eq_nil_of_le (by omega)
    have h3 : d.take (a + b) = d := List.take_of_length_le (by omega)
    rw [h1, h2, h3]
    unfold pad_to
    simp only [List.take_nil, List.length_nil, List.nil_append, Nat.sub_zero]
    rw [List.append_assoc, zeros_append]
    congr 2
    omega

theorem file_head_split (d : List Byte) :
    file_head d = pad_to 54 (d.take 54)
      ++ pad_to (4 * file_colors_used d) ((d.drop 54).take (4 * file_colors_used d)) := by
  unfold file_head
  rw [pad_to_append 2 4 d, pad_to_append 6 4 d, pad_to_append 10 4 d, pad_to_append 14 40 d]

theorem pad_to_take_get (n i : Nat) (l : List Byte) (h : i < n) :
    (pad_to n (l.take n))[i]? = some (l[i]?.getD 0) := by
  unfold pad_to
  by_cases hi : i < l.length
  · rw [List.getElem?_append_left (by simp; omega), List.getElem?_take, if_pos h,
      List.getElem?_eq_getElem hi]
    rfl
  · rw [List.getElem?_append_right (by simp; omega), List.getElem?_eq_none (by omega : l.length ≤ i)]
    simp only [zeros, List.getElem?_replicate, List.length_take, Option.getD_none]
    rw [if_pos (by omega)]

theorem unvalidated_offset_false (i : Nat) :
    unvalidated_offset i = false
      ↔ (14 ≤ i ∧ i < 26) ∨ (28 ≤ i ∧ i < 30) ∨ (46 ≤ i ∧ i < 50) ∨ 54 ≤ i := by
  unfold unvalidated_offset
  simp only [Bool.or_eq_false_iff, Bool.and_eq_false_iff, decide_eq_false_iff_not]
  omega

theorem drop_54_congr (d₁ d₂ : List Byte)
    (h : ∀ i, unvalidated_offset i = false → d₁[i]? = d₂[i]?) : d₁.drop 54 = d₂.drop 54 := by
  apply List.ext_getElem?
  intro n
  rw [List.getElem?_drop, List.getElem?_drop]
  exact h _ ((unvalidated_offset_false _).mpr (by omega))

theorem validated_field_congr (d₁ d₂ : List Byte) (off len : Nat)
    (h : ∀ i, unvalidated_offset i = false → d₁[i]? = d₂[i]?)
    (hoff : (14 ≤ off ∧ off + len ≤ 26) ∨ (28 ≤ off ∧ off + len ≤ 30)
      ∨ (46 ≤ off ∧ off + len ≤ 50)) : field d₁ off len = field d₂ off len :=
  field_congr d₁ d₂ off len fun i h1 h2 => h i ((unvalidated_offset_false i).mpr (by omega))

/-- Two inputs that agree outside the unvalidated fields send `main` through the same
checks and the same row loop; only the header bytes written back can differ. -/
theorem main_congr_unvalidated (a : Args) (d₁ d₂ : List Byte) (hin : a.input = some d₁)
    (h : ∀ i, unvalidated_offset i = false → d₁[i]? = d₂[i]?) :
    first_failing_check { a with input := some d₂ } = first_failing_check a
      ∧ file_pixel_offset d₂ = file_pixel_offset d₁
      ∧ ∀ k, row_loop (file_raw_width d₂) (file_table_width d₂) (file_height d₂)
            (zeros (file_raw_width d₂)) (zeros (file_table_width d₂)) ⟨k, 0⟩
            ⟨d₂, file_pixel_offset d₂⟩ []
          = row_loop (file_raw_width d₁) (file_table_width d₁) (file_height d₁)
            (zeros (file_raw_width d₁)) (zeros (file_table_width d₁)) ⟨k, 0⟩
            ⟨d₁, file_pixel_offset d₁⟩ [] := by
  have h40 : file_header_size d₂ = file_header_size d₁ :=
    (validated_field_congr d₁ d₂ 14 4 h (by omega)).symm
  have hbc : file_bit_count d₂ = file_bit_count d₁ :=
    (validated_field_congr d₁ d₂ 28 2 h (by omega)).symm
  have hcu : file_colors_used d₂ = file_colors_used d₁ :=
    (validated_field_congr d₁ d₂ 46 4 h (by omega)).symm
  have hh : file_height d₂ = file_height d₁ :=
    (validated_field_congr d₁ d₂ 22 4 h (by omega)).symm
  have hrw : file_raw_width d₂ = file_raw_width d₁ := by
    unfold file_raw_width file_px_width
    rw [validated_field_congr d₁ d₂ 18 4 h (by omega)]
  have htw : file_table_width d₂ = file_table_width d₁ := by
    unfold file_table_width
    rw [hrw]
  have hsz : file_image_data_size d₂ = file_image_data_size d₁ := by
    unfold file_image_data_size
    rw [hrw, hh]
  have hoff : file_pixel_offset d₂ = file_pixel_offset d₁ := by
    unfold file_pixel_offset
    rw [hcu]
  refine ⟨?_, hoff, ?_⟩
  · unfold first_failing_check
    simp only [hin, h40, hbc, hsz]
  · intro k
    rw [hrw, htw, hh, hoff]
    apply row_loop_congr _ _ _ _ _ _ _ _ _ _ rfl
    unfold rest
    simp only
    unfold file_pixel_offset
    rw [← List.drop_drop, ← List.drop_drop, drop_54_congr d₁ d₂ h]

/-- Two inputs that agree outside the unvalidated fields ask the same of the stack. -/
theorem stack_need_congr_unvalidated (d₁ d₂ : List Byte)
    (h : ∀ i, unvalidated_offset i = false → d₁[i]? = d₂[i]?) :
    file_colors_used d₂ = file_colors_used d₁ ∧ file_raw_width d₂ = file_raw_width d₁
      ∧ file_stack_need d₂ = file_stack_need d₁ := by
  have hcu : file_colors_used d₂ = file_colors_used d₁ :=
    (validated_field_congr d₁ d₂ 46 4 h (by omega)).symm
  have hrw : file_raw_width d₂ = file_raw_width d₁ := by
    unfold file_raw_width file_px_width
    rw [validated_field_congr d₁ d₂ 18 4 h (by omega)]
  refine ⟨hcu, hrw, ?_⟩
  unfold file_stack_need file_table_width
  rw [hcu, hrw]

theorem file_head_get_congr (d₁ d₂ o : List Byte)
    (h : ∀ i, unvalidated_offset i = false → d₁[i]? = d₂[i]?) (i : Nat)
    (hi : unvalidated_offset i = false) :
    (file_head d₂ ++ o)[i]? = (file_head d₁ ++ o)[i]? := by
  have hcu : file_colors_used d₂ = file_colors_used d₁ :=
    (validated_field_congr d₁ d₂ 46 4 h (by omega)).symm
  have hl : ∀ d : List Byte, (pad_to 54 (d.take 54)).length = 54 := fun d =>
    pad_to_length 54 _ (by simp)
  rw [file_head_split, file_head_split, hcu, drop_54_congr d₁ d₂ h, List.append_assoc,
    List.append_assoc]
  by_cases h54 : i < 54
  · rw [List.getElem?_append_left (by rw [hl]; exact h54),
      List.getElem?_append_left (by rw [hl]; exact h54), pad_to_take_get _ _ _ h54,
      pad_to_take_get _ _ _ h54, h i hi]
  · have e : ∀ A T : List Byte, A.length = 54 → (A ++ T)[i]? = T[i - 54]? := fun A T hA => by
      rw [List.getElem?_append_right (by omega), hA]
    rw [e _ _ (hl d₂), e _ _ (hl d₁)]

/-! ## Two keys -/

theorem xor_xor_assoc (a k₁ k₂ : Byte) : (a ^^^ k₁) ^^^ k₂ = a ^^^ (k₁ ^^^ k₂) := by
  apply Fin.ext
  show ((a.val ^^^ k₁.val) % 256 ^^^ k₂.val) % 256 = (a.val ^^^ (k₁.val ^^^ k₂.val) % 256) % 256
  have h1 : a.val ^^^ k₁.val < 256 := Nat.xor_lt_two_pow (n := 8) a.isLt k₁.isLt
  have h2 : k₁.val ^^^ k₂.val < 256 := Nat.xor_lt_two_pow (n := 8) k₁.isLt k₂.isLt
  rw [Nat.mod_eq_of_lt h1, Nat.mod_eq_of_lt h2, Nat.xor_assoc]

theorem xor_self_eq_zero (a : Byte) : a ^^^ a = 0 := by
  apply Fin.ext
  show (a.val ^^^ a.val) % 256 = 0
  rw [Nat.xor_self]

theorem xor_left_cancel (a x y : Byte) (h : a ^^^ x = a ^^^ y) : x = y := by
  have hx : ∀ z : Byte, a ^^^ (a ^^^ z) = z := by
    intro z
    rw [← xor_xor_assoc, xor_self_eq_zero]
    apply Fin.ext
    show (0 ^^^ z.val) % 256 = z.val
    rw [Nat.zero_xor, Nat.mod_eq_of_lt z.isLt]
  rw [← hx x, h, hx y]

theorem xor_keys_length (k₁ k₂ : List Byte) (h : k₁.length = k₂.length) :
    (xor_keys k₁ k₂).length = k₁.length := by
  simp [xor_keys, h]

theorem xor_keys_self (k : List Byte) : xor_keys k k = zeros k.length := by
  induction k with
  | nil => rfl
  | cons a k ih =>
    have : zeros (a :: k).length = 0 :: zeros k.length := by simp [zeros, List.replicate_succ]
    rw [this, ← ih]
    simp [xor_keys, xor_self_eq_zero]

theorem xor_visible_compose : ∀ (x K₁ K₂ r₁ r₂ : List Byte), K₁.length = K₂.length →
    xor_visible x K₁ = some r₁ → xor_visible r₁ K₂ = some r₂ →
    xor_visible x (xor_keys K₁ K₂) = some r₂
  | x, [], [], r₁, r₂, _, h₁, h₂ => by
    cases x <;> simp [xor_visible] at h₁ <;> subst h₁ <;> simpa [xor_keys] using h₂
  | _, [], _ :: _, _, _, hl, _, _ => by simp at hl
  | _, _ :: _, [], _, _, hl, _, _ => by simp at hl
  | [], _ :: _, _ :: _, _, _, _, h₁, _ => by simp [xor_visible] at h₁
  | a :: x, b :: K₁, c :: K₂, r₁, r₂, hl, h₁, h₂ => by
    simp only [xor_visible, Option.map_eq_some'] at h₁
    obtain ⟨t₁, ht₁, rfl⟩ := h₁
    simp only [xor_visible, Option.map_eq_some'] at h₂
    obtain ⟨t₂, ht₂, rfl⟩ := h₂
    have ih := xor_visible_compose x K₁ K₂ t₁ t₂ (by simpa using hl) ht₁ ht₂
    simp only [xor_keys] at ih
    simp [xor_keys, xor_visible, ih, xor_xor_assoc]

theorem fread_xor (kb₁ kb₂ : List Byte) (n : Nat) (fk₁ fk₂ fk₃ : Stream)
    (hr : (rest fk₁).length = (rest fk₂).length)
    (h₃ : rest fk₃ = xor_keys (rest fk₁) (rest fk₂)) :
    (fread (xor_keys kb₁ kb₂) 1 n fk₃).1 = xor_keys (fread kb₁ 1 n fk₁).1 (fread kb₂ 1 n fk₂).1
      ∧ (rest (fread kb₁ 1 n fk₁).2).length = (rest (fread kb₂ 1 n fk₂).2).length
      ∧ rest (fread (xor_keys kb₁ kb₂) 1 n fk₃).2
        = xor_keys (rest (fread kb₁ 1 n fk₁).2) (rest (fread kb₂ 1 n fk₂).2) := by
  refine ⟨?_, ?_, ?_⟩
  · rw [fread_fst, fread_fst, fread_fst, h₃]
    unfold xor_keys
    rw [List.zipWith_append _ _ _ _ _ (by simp [hr]), List.take_zipWith, List.drop_zipWith]
    simp [hr]
  · rw [fread_rest, fread_rest, List.length_drop, List.length_drop, hr]
  · rw [fread_rest, fread_rest, fread_rest, h₃]
    unfold xor_keys
    rw [List.drop_zipWith]

/-- Running the loop with key stream 1, then on its output with key stream 2, writes what
one run with the XOR of the two key streams writes. -/
theorem row_loop_compose (rw tw : Nat) : ∀ (n : Nat) (kb₁ kb₂ pr₁ pr₂ pr₃ : List Byte)
    (fk₁ fk₂ fk₃ fi₁ fi₂ fi₃ : Stream) (o₁ o₂ : List Byte),
    kb₁.length = rw → kb₂.length = rw → pr₁.length = tw → pr₂.length = tw → pr₃.length = tw →
    (rest fk₁).length = (rest fk₂).length → rest fk₃ = xor_keys (rest fk₁) (rest fk₂) →
    (rest fi₁).length = tw * n → rest fi₃ = rest fi₁ →
    row_loop rw tw n kb₁ pr₁ fk₁ fi₁ [] = some o₁ → rest fi₂ = o₁ →
    row_loop rw tw n kb₂ pr₂ fk₂ fi₂ [] = some o₂ →
    row_loop rw tw n (xor_keys kb₁ kb₂) pr₃ fk₃ fi₃ [] = some o₂
  | 0, _, _, _, _, _, _, _, _, _, _, _, o₁, o₂, _, _, _, _, _, _, _, _, _, _, _, h₂ => by
    simp only [row_loop] at h₂ ⊢
    exact h₂
  | n + 1, kb₁, kb₂, pr₁, pr₂, pr₃, fk₁, fk₂, fk₃, fi₁, fi₂, fi₃, o₁, o₂,
      hkb₁, hkb₂, hpr₁, hpr₂, hpr₃, hfk, hfk₃, hfi₁, hfi₃, h₁, hfi₂, h₂ => by
    obtain ⟨row₁, o₁', hx₁, hlen₁, ho₁, rfl⟩ := row_loop_succ rw tw n kb₁ pr₁ fk₁ fi₁ o₁ hpr₁ h₁
    obtain ⟨row₂, o₂', hx₂, hlen₂, ho₂, rfl⟩ := row_loop_succ rw tw n kb₂ pr₂ fk₂ fi₂ o₂ hpr₂ h₂
    obtain ⟨hK₃, hfk', hfk₃'⟩ := fread_xor kb₁ kb₂ rw fk₁ fk₂ fk₃ hfk hfk₃
    have hK₁ : (fread kb₁ 1 rw fk₁).1.length = rw := by
      rw [fread_length _ _ _ _ (by simpa using hkb₁), Nat.one_mul]
    have hK₂ : (fread kb₂ 1 rw fk₂).1.length = rw := by
      rw [fread_length _ _ _ _ (by simpa using hkb₂), Nat.one_mul]
    have hge : 1 * tw ≤ (rest fi₁).length := by rw [hfi₁]; nlinarith
    have hP₂ : (fread pr₂ 1 tw fi₂).1 = row₁ := by
      rw [fread_full _ _ _ _ (by simpa using hpr₂) (by rw [hfi₂]; simp [hlen₁]), hfi₂,
        Nat.one_mul, ← hlen₁, List.take_left]
    have hP₂' : rest (fread pr₂ 1 tw fi₂).2 = o₁' := by
      rw [fread_rest, hfi₂, Nat.one_mul, ← hlen₁, List.drop_left]
    have hP₃ : (fread pr₃ 1 tw fi₃).1 = (fread pr₁ 1 tw fi₁).1 := by
      rw [fread_full _ _ _ _ (by simpa using hpr₃) (by rw [hfi₃]; exact hge),
        fread_full _ _ _ _ (by simpa using hpr₁) hge, hfi₃]
    have hP₃' : rest (fread pr₃ 1 tw fi₃).2 = rest (fread pr₁ 1 tw fi₁).2 := by
      rw [fread_rest, fread_rest, hfi₃]
    rw [hP₂] at hx₂
    have hx₃ := xor_visible_compose _ _ _ _ _ (hK₁.trans hK₂.symm) hx₁ hx₂
    have ih := row_loop_compose rw tw n (fread kb₁ 1 rw fk₁).1 (fread kb₂ 1 rw fk₂).1
      row₁ row₂ row₂ (fread kb₁ 1 rw fk₁).2 (fread kb₂ 1 rw fk₂).2
      (fread (xor_keys kb₁ kb₂) 1 rw fk₃).2 (fread pr₁ 1 tw fi₁).2 (fread pr₂ 1 tw fi₂).2
      (fread pr₃ 1 tw fi₃).2 o₁' o₂' hK₁ hK₂ hlen₁ hlen₂ hlen₂ hfk' hfk₃'
      (by rw [fread_rest, List.length_drop, hfi₁, Nat.one_mul, Nat.mul_succ]; omega)
      hP₃' ho₁ hP₂' ho₂
    simp only [row_loop, hP₃, hK₃, hx₃]
    rw [row_loop_acc, ih]
    simp [fwrite, List.take_of_length_le (Nat.le_of_eq hlen₂)]

/-- What the output of an accepted run decodes to, when the input holds its headers and
color table: the same header values, the same header bytes, and the rows written lying
from the pixel offset on. -/
theorem views_of_output (d o : List Byte) (hoff : file_pixel_offset d ≤ d.length) :
    file_header_size (file_head d ++ o) = file_header_size d
      ∧ file_bit_count (file_head d ++ o) = file_bit_count d
      ∧ file_raw_width (file_head d ++ o) = file_raw_width d
      ∧ file_table_width (file_head d ++ o) = file_table_width d
      ∧ file_height (file_head d ++ o) = file_height d
      ∧ file_pixel_offset (file_head d ++ o) = file_pixel_offset d
      ∧ file_image_data_size (file_head d ++ o) = file_image_data_size d
      ∧ file_head (file_head d ++ o) = file_head d
      ∧ rest ⟨file_head d ++ o, file_pixel_offset d⟩ = o := by
  have hhead := file_head_of_le d hoff
  have hheadlen := file_head_length d
  have h54 : 54 ≤ (file_head d).length := by rw [hheadlen]; unfold file_pixel_offset; omega
  have hfield : ∀ off len, off + len ≤ 54 → field (file_head d ++ o) off len = field d off len := by
    intro off len hle
    rw [field_append_left _ _ _ _ (by omega), hhead, field_take _ _ _ _ (by
      unfold file_pixel_offset; omega)]
  have hcu : file_colors_used (file_head d ++ o) = file_colors_used d := hfield 46 4 (by omega)
  have hw : file_raw_width (file_head d ++ o) = file_raw_width d := by
    unfold file_raw_width file_px_width
    rw [hfield 18 4 (by omega)]
  have htw : file_table_width (file_head d ++ o) = file_table_width d := by
    unfold file_table_width
    rw [hw]
  have hh : file_height (file_head d ++ o) = file_height d := hfield 22 4 (by omega)
  have hoff' : file_pixel_offset (file_head d ++ o) = file_pixel_offset d := by
    unfold file_pixel_offset
    rw [hcu]
  refine ⟨hfield 14 4 (by omega), hfield 28 2 (by omega), hw, htw, hh, hoff', ?_, ?_, ?_⟩
  · unfold file_image_data_size
    rw [hw, hh]
  · rw [file_head_of_le _ (by rw [hoff', List.length_append, hheadlen]; omega), hoff',
      ← hheadlen, List.take_left]
  · unfold rest
    simp only
    rw [← hheadlen, List.drop_left]

theorem stack_need_of_output (d o : List Byte) (hoff : file_pixel_offset d ≤ d.length) :
    file_stack_need (file_head d ++ o) = file_stack_need d := by
  obtain ⟨_, _, vrw, vtw, _, voff, _, _, _⟩ := views_of_output d o hoff
  unfold file_stack_need
  unfold file_pixel_offset at voff
  rw [vrw, vtw]
  omega

/-- A run that passes every check, whose arrays fit the stack and whose row loop
completes ends with code 0, the output being the header bytes and the rows of the loop. -/
theorem main_of_loop (a : Args) (d k rows : List Byte) (hargc : a.argc = 4)
    (hin : a.input = some d) (hk : a.key = some k) (h40 : file_header_size d = 40)
    (h1 : file_bit_count d = 1) (hsz : k.length = file_image_data_size d)
    (hwr : a.writable = true) (hneed : file_stack_need d ≤ a.stack)
    (hrows : row_loop (file_raw_width d) (file_table_width d) (file_height d)
      (zeros (file_raw_width d)) (zeros (file_table_width d)) ⟨k, 0⟩
      ⟨d, file_pixel_offset d⟩ [] = some rows) :
    main a = ⟨some 0, some (file_head d ++ rows)⟩ := by
  rw [main_pass a d k hargc hin hk h40 h1 hsz hwr, if_pos hneed, hrows]

/-- Two runs of the loop on the same input with two key streams: a byte of a row differs
exactly when it is a visible byte and the two key bytes for it differ. -/
theorem row_loop_get_diff (rw tw n : Nat) (kb pr : List Byte) (fk₁ fk₂ fi : Stream)
    (o₁ o₂ : List Byte) (hkb : kb.length = rw) (hpr : pr.length = tw)
    (hfi : tw * n ≤ (rest fi).length) (hfk₁ : rw * n ≤ (rest fk₁).length)
    (hfk₂ : rw * n ≤ (rest fk₂).length)
    (h₁ : row_loop rw tw n kb pr fk₁ fi [] = some o₁)
    (h₂ : row_loop rw tw n kb pr fk₂ fi [] = some o₂) (i j : Nat) (hi : i < n) (hj : j < tw) :
    o₁[i * tw + j]? ≠ o₂[i * tw + j]?
      ↔ j < rw ∧ (rest fk₁)[i * rw + j]? ≠ (rest fk₂)[i * rw + j]? := by
  by_cases hjr : j < rw
  · obtain ⟨x₁, y₁, hx₁, hy₁, hxy₁⟩ :=
      row_loop_get_xor rw tw n kb pr fk₁ fi o₁ hkb hpr hfi hfk₁ h₁ i j hi hjr
    obtain ⟨x₂, y₂, hx₂, hy₂, hxy₂⟩ :=
      row_loop_get_xor rw tw n kb pr fk₂ fi o₂ hkb hpr hfi hfk₂ h₂ i j hi hjr
    rw [hx₁, Option.some.injEq] at hx₂
    subst hx₂
    rw [hxy₁, hxy₂, hy₁, hy₂]
    constructor
    · intro hne
      refine ⟨hjr, fun he => hne ?_⟩
      rw [Option.some.injEq] at he
      rw [he]
    · rintro ⟨_, hne⟩ he
      rw [Option.some.injEq] at he
      exact hne (by rw [xor_left_cancel _ _ _ he])
  · rw [row_loop_get_pad rw tw n kb pr fk₁ fi o₁ hkb hpr hfi h₁ i j hi (by omega) hj,
      row_loop_get_pad rw tw n kb pr fk₂ fi o₂ hkb hpr hfi h₂ i j hi (by omega) hj]
    exact ⟨fun hne => absurd rfl hne, fun h => absurd h.1 hjr⟩

/-- Two inputs on which the loop, with the same key stream, writes the same rows hold the
same rows. -/
theorem row_loop_input_determined (rw tw : Nat) : ∀ (n : Nat) (kb pr pr' : List Byte)
    (fk fi fi' : Stream) (out : List Byte), pr.length = tw → pr'.length = tw →
    tw * n ≤ (rest fi).length → tw * n ≤ (rest fi').length →
    row_loop rw tw n kb pr fk fi [] = some out → row_loop rw tw n kb pr' fk fi' [] = some out →
    (rest fi).take (tw * n) = (rest fi').take (tw * n)
  | 0, _, _, _, _, _, _, _, _, _, _, _, _, _ => by simp
  | n + 1, kb, pr, pr', fk, fi, fi', out, hpr, hpr', hfi, hfi', h, h' => by
    obtain ⟨row, o, hx, hlen, ho, rfl⟩ := row_loop_succ rw tw n kb pr fk fi out hpr h
    obtain ⟨row', o', hx', hlen', ho', he⟩ := row_loop_succ rw tw n kb pr' fk fi' _ hpr' h'
    obtain ⟨hrow, ho_eq⟩ := List.append_inj he (hlen.trans hlen'.symm)
    subst hrow
    subst ho_eq
    have hge : 1 * tw ≤ (rest fi).length := by rw [Nat.mul_succ] at hfi; omega
    have hge' : 1 * tw ≤ (rest fi').length := by rw [Nat.mul_succ] at hfi'; omega
    have hP : (fread pr 1 tw fi).1 = (rest fi).take tw := by
      rw [fread_full _ _ _ _ (by simpa using hpr) hge, Nat.one_mul]
    have hP' : (fread pr' 1 tw fi').1 = (rest fi').take tw := by
      rw [fread_full _ _ _ _ (by simpa using hpr') hge', Nat.one_mul]
    have hP2 : rest (fread pr 1 tw fi).2 = (rest fi).drop tw := by rw [fread_rest, Nat.one_mul]
    have hP2' : rest (fread pr' 1 tw fi').2 = (rest fi').drop tw := by
      rw [fread_rest, Nat.one_mul]
    have hinv := xor_visible_invol _ _ _ hx
    have hinv' := xor_visible_invol _ _ _ hx'
    rw [hinv, Option.some.injEq, hP, hP'] at hinv'
    have ih := row_loop_input_determined rw tw n _ row row _ _ _ o hlen hlen
      (by rw [hP2, List.length_drop]; rw [Nat.mul_succ] at hfi; omega)
      (by rw [hP2', List.length_drop]; rw [Nat.mul_succ] at hfi'; omega) ho ho'
    rw [hP2, hP2'] at ih
    have e : tw * (n + 1) = tw + tw * n := by rw [Nat.mul_succ]; omega
    rw [e, List.take_add, List.take_add, hinv', ih]

theorem exists_getElem?_ne_of_ne (k₁ k₂ : List Byte) (hl : k₁.length = k₂.length)
    (hne : k₁ ≠ k₂) : ∃ t, t < k₁.length ∧ k₁[t]? ≠ k₂[t]? := by
  by_contra hc
  apply hne
  apply List.ext_getElem?
  intro t
  by_cases ht : t < k₁.length
  · by_contra hd
    exact hc ⟨t, ht, hd⟩
  · rw [List.getElem?_eq_none (by omega), List.getElem?_eq_none (by omega)]

/-! ## The claims -/

/-- C1, round trip: when the input is laid out as the format describes (both headers,
`colors_used` color entries, then `height` rows of the padded width, and nothing else) and
a run exits 0 with output `O`, the run on `O` with the same key and the same other
arguments exits 0 and its output is the original input, byte for byte. -/
theorem C1_round_trip (a : Args) (d O : List Byte) (hin : a.input = some d)
    (hlayout : d.length
      = 54 + 4 * file_colors_used d + file_table_width d * file_height d)
    (hrun : main a = ⟨some 0, some O⟩) :
    main { a with input := some O } = ⟨some 0, some d⟩ := by
  have hneed := main_zero_fits a d O hin hrun
  obtain ⟨hargc, h40, h1, hwr, k, o, hk, hsz, ho, rfl⟩ := main_zero_inv a d O hin hrun
  have hoff : file_pixel_offset d ≤ d.length := by unfold file_pixel_offset; omega
  obtain ⟨v40, v1, vrw, vtw, vh, voff, vsz, vhead, vrest⟩ := views_of_output d o hoff
  have hrestd : (rest ⟨d, file_pixel_offset d⟩).length = file_table_width d * file_height d := by
    unfold rest
    simp only [List.length_drop]
    unfold file_pixel_offset
    omega
  have hrt := row_loop_roundtrip (file_raw_width d) (file_table_width d) (file_height d)
    (zeros (file_raw_width d)) (zeros (file_table_width d)) (zeros (file_table_width d))
    ⟨k, 0⟩ ⟨d, file_pixel_offset d⟩ ⟨file_head d ++ o, file_pixel_offset d⟩ o
    (zeros_length _) (zeros_length _) hrestd ho vrest
  rw [main_of_loop { a with input := some (file_head d ++ o) } (file_head d ++ o) k
    (rest ⟨d, file_pixel_offset d⟩) hargc rfl hk (v40.trans h40) (v1.trans h1)
    (by rw [vsz]; exact hsz) hwr (by rw [stack_need_of_output d o hoff]; exact hneed)
    (by rw [vrw, vtw, vh, voff]; exact hrt), vhead, file_head_of_le d hoff]
  unfold rest
  simp only [List.take_append_drop]

/-- The round trip on the 2x2 image of the scenario. -/
theorem C1_round_trip_witness :
    args22.input = some img22
      ∧ img22.length
        = 54 + 4 * file_colors_used img22 + file_table_width img22 * file_height img22
      ∧ main args22 = ⟨some 0, some out22⟩
      ∧ main { args22 with input := some out22 } = ⟨some 0, some img22⟩ :=
  ⟨rfl, img22_layout, main_args22,
    C1_round_trip args22 img22 out22 rfl img22_layout main_args22⟩

/-- C2, row XOR: when a run exits 0, the input holds all `height` rows and the key holds
`raw_width * height` bytes, then for every stored row `i` and every byte `j` below the
unpadded width, byte `j` of output row `i` is byte `j` of input row `i` XOR key byte
`i * raw_width + j`. Rows keep their place and key chunk `i` goes to stored row `i`. -/
theorem C2_row_xor (a : Args) (d k O : List Byte) (hin : a.input = some d)
    (hkey : a.key = some k) (hrun : main a = ⟨some 0, some O⟩)
    (hrows : file_pixel_offset d + file_table_width d * file_height d ≤ d.length)
    (hklen : k.length = file_raw_width d * file_height d)
    (i j : Nat) (hi : i < file_height d) (hj : j < file_raw_width d) :
    ∃ x y, d[file_pixel_offset d + (i * file_table_width d + j)]? = some x
      ∧ k[i * file_raw_width d + j]? = some y
      ∧ O[file_pixel_offset d + (i * file_table_width d + j)]? = some (x ^^^ y) := by
  obtain ⟨_, _, _, _, k', o, hk', _, ho, rfl⟩ := main_zero_inv a d O hin hrun
  rw [hkey, Option.some.injEq] at hk'
  subst hk'
  obtain ⟨x, y, hx, hy, hxy⟩ := row_loop_get_xor (file_raw_width d) (file_table_width d)
    (file_height d) _ _ ⟨k, 0⟩ ⟨d, file_pixel_offset d⟩ o (zeros_length _) (zeros_length _)
    (by unfold rest; simp only [List.length_drop]; omega)
    (by unfold rest; simp only [List.length_drop, List.drop_zero]; omega) ho i j hi hj
  refine ⟨x, y, ?_, ?_, ?_⟩
  · simpa [rest, List.getElem?_drop] using hx
  · simpa [rest] using hy
  · rw [List.getElem?_append_right (by rw [file_head_length]; omega), file_head_length,
      Nat.add_sub_cancel_left]
    exact hxy

/-- The scenario of the specification: key `03 FF` on rows `00 ..` and `FF ..` gives rows
`03 ..` and `00 ..`; shown for the second row, whose visible byte is at offset 66. -/
theorem C2_row_xor_witness :
    main args22 = ⟨some 0, some out22⟩
      ∧ file_pixel_offset img22 + file_table_width img22 * file_height img22 ≤ img22.length
      ∧ key22.length = file_raw_width img22 * file_height img22
      ∧ 1 < file_height img22 ∧ 0 < file_raw_width img22
      ∧ out22.drop 62 = [0x03, 0xAA, 0xBB, 0xCC, 0x00, 0x11, 0x22, 0x33]
      ∧ ∃ x y, img22[file_pixel_offset img22 + (1 * file_table_width img22 + 0)]? = some x
        ∧ key22[1 * file_raw_width img22 + 0]? = some y
        ∧ out22[file_pixel_offset img22 + (1 * file_table_width img22 + 0)]? = some (x ^^^ y) :=
  ⟨main_args22, by decide, by decide, by decide, by decide, by decide,
    C2_row_xor args22 img22 key22 out22 rfl rfl main_args22 (by decide) (by decide) 1 0
      (by decide) (by decide)⟩

/-- C3, padding preservation: when a run exits 0 and the input holds all `height` rows,
every byte of an output row at an index from the unpadded width up to the padded width is
the byte of the input row at that index, whatever the key is. -/
theorem C3_padding_preserved (a : Args) (d O : List Byte) (hin : a.input = some d)
    (hrun : main a = ⟨some 0, some O⟩)
    (hrows : file_pixel_offset d + file_table_width d * file_height d ≤ d.length)
    (i j : Nat) (hi : i < file_height d) (hj : file_raw_width d ≤ j)
    (hj' : j < file_table_width d) :
    ∃ x, d[file_pixel_offset d + (i * file_table_width d + j)]? = some x
      ∧ O[file_pixel_offset d + (i * file_table_width d + j)]? = some x := by
  obtain ⟨_, _, _, _, k, o, _, _, ho, rfl⟩ := main_zero_inv a d O hin hrun
  have hget := row_loop_get_pad (file_raw_width d) (file_table_width d)
    (file_height d) _ _ ⟨k, 0⟩ ⟨d, file_pixel_offset d⟩ o (zeros_length _) (zeros_length _)
    (by unfold rest; simp only [List.length_drop]; omega) ho i j hi hj hj'
  have hidx : file_pixel_offset d + (i * file_table_width d + j) < d.length := by
    have : i * file_table_width d + file_table_width d ≤ file_table_width d * file_height d := by
      calc i * file_table_width d + file_table_width d = file_table_width d * (i + 1) := by ring
        _ ≤ file_table_width d * file_height d := Nat.mul_le_mul_left _ hi
    omega
  refine ⟨d[file_pixel_offset d + (i * file_table_width d + j)], List.getElem?_eq_getElem hidx, ?_⟩
  rw [List.getElem?_append_right (by rw [file_head_length]; omega), file_head_length,
    Nat.add_sub_cancel_left, hget]
  simp only [rest, List.getElem?_drop]
  exact List.getElem?_eq_getElem hidx

/-- The padding byte `22` of the second row of the 2x2 image (offset 62 + 4 + 2). -/
theorem C3_padding_preserved_witness :
    main args22 = ⟨some 0, some out22⟩
      ∧ file_raw_width img22 ≤ 2 ∧ 2 < file_table_width img22
      ∧ ∃ x, img22[file_pixel_offset img22 + (1 * file_table_width img22 + 2)]? = some x
        ∧ out22[file_pixel_offset img22 + (1 * file_table_width img22 + 2)]? = some x :=
  ⟨main_args22, by decide, by decide,
    C3_padding_preserved args22 img22 out22 rfl main_args22 (by decide) 1 2 (by decide)
      (by decide) (by decide)⟩

/-- C4, header pass-through: when the input has at least 54 bytes and a run exits 0, the
first 54 bytes of the output (file header, then info header) are the first 54 bytes of the
input, whatever the key holds. -/
theorem C4_header_pass_through (a : Args) (d O : List Byte) (hin : a.input = some d)
    (hlen : 54 ≤ d.length) (hrun : main a = ⟨some 0, some O⟩) : O.take 54 = d.take 54 := by
  obtain ⟨_, _, _, _, k, o, _, _, _, rfl⟩ := main_zero_inv a d O hin hrun
  rw [file_head_of_54 d hlen, List.append_assoc,
    List.take_append_of_le_length (by rw [List.length_take]; omega), List.take_take]
  simp

/-- The 54 header bytes of the 2x2 image come out as they went in. -/
theorem C4_header_pass_through_witness :
    54 ≤ img22.length ∧ main args22 = ⟨some 0, some out22⟩ ∧ out22.take 54 = img22.take 54 :=
  ⟨by decide, main_args22,
    C4_header_pass_through args22 img22 out22 rfl (by decide) main_args22⟩

/-- C5, color table pass-through: when a run exits 0 and the input holds its
`N = colors_used` color entries (at least `54 + 4 * N` bytes), output bytes
`54 .. 54 + 4 * N - 1` are input bytes `54 .. 54 + 4 * N - 1`, whatever the key holds, and
what follows in the output from offset `54 + 4 * N` on is the rows the row loop wrote. -/
theorem C5_color_table_pass_through (a : Args) (d O : List Byte) (hin : a.input = some d)
    (hlen : 54 + 4 * file_colors_used d ≤ d.length) (hrun : main a = ⟨some 0, some O⟩) :
    (O.drop 54).take (4 * file_colors_used d) = (d.drop 54).take (4 * file_colors_used d)
      ∧ ∃ k rows, a.key = some k
        ∧ row_loop (file_raw_width d) (file_table_width d) (file_height d)
            (zeros (file_raw_width d)) (zeros (file_table_width d)) ⟨k, 0⟩
            ⟨d, 54 + 4 * file_colors_used d⟩ [] = some rows
        ∧ O.drop (54 + 4 * file_colors_used d) = rows := by
  obtain ⟨_, _, _, _, k, o, hk, _, ho, rfl⟩ := main_zero_inv a d O hin hrun
  have hhead := file_head_of_le d hlen
  have hheadlen := file_head_length d
  unfold file_pixel_offset at hhead hheadlen ho
  refine ⟨?_, k, o, hk, ho, ?_⟩
  · rw [List.take_drop, List.take_drop, List.take_append_of_le_length (by omega), hhead,
      List.take_take, Nat.min_self]
  · rw [← hheadlen, List.drop_left]

/-- The two color entries of the 2x2 image, and its rows from offset 62 on. -/
theorem C5_color_table_pass_through_witness :
    54 + 4 * file_colors_used img22 ≤ img22.length ∧ main args22 = ⟨some 0, some out22⟩
      ∧ (out22.drop 54).take (4 * file_colors_used img22)
        = (img22.drop 54).take (4 * file_colors_used img22)
      ∧ ∃ k rows, args22.key = some k
        ∧ row_loop (file_raw_width img22) (file_table_width img22) (file_height img22)
            (zeros (file_raw_width img22)) (zeros (file_table_width img22)) ⟨k, 0⟩
            ⟨img22, 54 + 4 * file_colors_used img22⟩ [] = some rows
        ∧ out22.drop (54 + 4 * file_colors_used img22) = rows :=
  ⟨by decide, main_args22,
    C5_color_table_pass_through args22 img22 out22 rfl (by decide) main_args22⟩

/-- C6, output layout: when a run exits 0 and the height is not negative, the output is
the file header (14 bytes), the info header (40 bytes), the color table
(`4 * colors_used` bytes) and the rows written by the row loop, in that order, and its
length is `14 + 40 + 4 * colors_used + table_width * px_height`, however long the input
file is. -/
theorem C6_output_layout (a : Args) (d O : List Byte) (hin : a.input = some d)
    (hrun : main a = ⟨some 0, some O⟩) (hh : 0 ≤ file_px_height d) :
    ∃ k rows, a.key = some k
      ∧ row_loop (file_raw_width d) (file_table_width d) (file_height d)
          (zeros (file_raw_width d)) (zeros (file_table_width d)) ⟨k, 0⟩
          ⟨d, 54 + 4 * file_colors_used d⟩ [] = some rows
      ∧ O = (file_header_of d).type ++ (file_header_of d).size ++ (file_header_of d).reserved
          ++ (file_header_of d).offset_bits ++ (info_header_of d).bytes ++ indexed_color_of d
          ++ rows
      ∧ ((file_header_of d).type ++ (file_header_of d).size ++ (file_header_of d).reserved
          ++ (file_header_of d).offset_bits).length = 14
      ∧ (info_header_of d).bytes.length = 40
      ∧ (indexed_color_of d).length = 4 * file_colors_used d
      ∧ rows.length = file_table_width d * (file_px_height d).toNat
      ∧ O.length
        = 14 + 40 + 4 * file_colors_used d + file_table_width d * (file_px_height d).toNat := by
  obtain ⟨_, _, _, _, k, o, hk, _, ho, rfl⟩ := main_zero_inv a d O hin hrun
  have hrows := row_loop_length _ _ _ _ _ _ _ o (zeros_length _) ho
  rw [file_height_of_nonneg d hh] at hrows
  have hheadlen := file_head_length d
  have hfh : ((file_header_of d).type ++ (file_header_of d).size ++ (file_header_of d).reserved
      ++ (file_header_of d).offset_bits).length = 14 := by
    unfold file_header_of
    rw [(read_headers_eq ⟨d, 0⟩).1]
    simp only [List.length_append]
    rw [pad_to_length 2 _ (by simp), pad_to_length 4 _ (by simp), pad_to_length 4 _ (by simp),
      pad_to_length 4 _ (by simp)]
  have hih : (info_header_of d).bytes.length = 40 := by
    unfold info_header_of
    rw [(read_headers_eq ⟨d, 0⟩).2.1]
    exact pad_to_length 40 _ (by simp)
  have hic : (indexed_color_of d).length = 4 * file_colors_used d := by
    have := hheadlen
    rw [file_head_eq, List.length_append, List.length_append, hfh, hih] at this
    unfold file_pixel_offset at this
    omega
  refine ⟨k, o, hk, ho, by rw [← file_head_eq], hfh, hih, hic, hrows, ?_⟩
  rw [List.length_append, hheadlen, hrows]
  rfl

/-- The layout of the output for the 2x2 image: 14 + 40 + 8 + 4 * 2 = 70 bytes. -/
theorem C6_output_layout_witness :
    main args22 = ⟨some 0, some out22⟩ ∧ 0 ≤ file_px_height img22 ∧ out22.length = 70
      ∧ ∃ k rows, args22.key = some k
        ∧ row_loop (file_raw_width img22) (file_table_width img22) (file_height img22)
            (zeros (file_raw_width img22)) (zeros (file_table_width img22)) ⟨k, 0⟩
            ⟨img22, 54 + 4 * file_colors_used img22⟩ [] = some rows
        ∧ out22 = (file_header_of img22).type ++ (file_header_of img22).size
            ++ (file_header_of img22).reserved ++ (file_header_of img22).offset_bits
            ++ (info_header_of img22).bytes ++ indexed_color_of img22 ++ rows
        ∧ ((file_header_of img22).type ++ (file_header_of img22).size
            ++ (file_header_of img22).reserved ++ (file_header_of img22).offset_bits).length = 14
        ∧ (info_header_of img22).bytes.length = 40
        ∧ (indexed_color_of img22).length = 4 * file_colors_used img22
        ∧ rows.length = file_table_width img22 * (file_px_height img22).toNat
        ∧ out22.length = 14 + 40 + 4 * file_colors_used img22
            + file_table_width img22 * (file_px_height img22).toNat :=
  ⟨main_args22, by decide, by decide,
    C6_output_layout args22 img22 out22 rfl main_args22 (by decide)⟩

/-- C7 as stated fails: the 2x2 image announcing 4194306 color entries has info-header
size 40, bit depth 1, width and height 2, and needs a key of 2 bytes. With a key of 3 bytes
and a stack of 8 MiB the run does not end with exit code 6: the color table, 16777224 bytes
of automatic storage declared before the key is looked at, does not fit the stack and the
run is killed there, with no exit code and no output. -/
theorem C7_color_table_counterexample :
    file_header_size img22_many_colors = 40 ∧ file_bit_count img22_many_colors = 1
      ∧ file_px_width img22_many_colors = 2 ∧ file_px_height img22_many_colors = 2
      ∧ file_raw_width img22_many_colors * (file_px_height img22_many_colors).toNat = 2
      ∧ 4 * file_colors_used img22_many_colors = 16777224
      ∧ main ⟨4, some img22_many_colors, some [0x03, 0xFF, 0x00], true, 8388608⟩
          = ⟨none, none⟩ := by
  decide

/-- C7, size validation: when the info-header size is 40, the bit depth is 1, width and
height are not negative, the color table the header announces fits the stack and the key
file can be opened, a key one byte shorter or one byte longer than `K` is refused with exit
code 6 and no output is written. `K` is the unpadded row width times the height, the width
being the one the program computes or the rounded-up eighth of the pixel width. -/
theorem C7_size_validation (a : Args) (d k : List Byte) (K : Nat) (hargc : a.argc = 4)
    (hin : a.input = some d) (hkey : a.key = some k) (h40 : file_header_size d = 40)
    (h1 : file_bit_count d = 1) (hw : 0 ≤ file_px_width d) (hh : 0 ≤ file_px_height d)
    (hcf : 4 * file_colors_used d ≤ a.stack)
    (hK : K = file_raw_width d * (file_px_height d).toNat
      ∨ K = ((file_px_width d).toNat + 7) / 8 * (file_px_height d).toNat)
    (hlen : k.length + 1 = K ∨ k.length = K + 1) : main a = ⟨some 6, none⟩ := by
  have hhlt : (file_px_height d).toNat < 2147483648 := by
    have := to_int32_lt (field d 22 4)
    unfold file_px_height
    omega
  have hwlt : file_px_width d < 2147483648 := to_int32_lt _
  have hne : k.length ≠ file_image_data_size d := by
    unfold file_image_data_size
    rw [file_height_of_nonneg d hh]
    rcases hK with rfl | rfl
    · exact truncated_product_ne _ _ _ _ hhlt (Or.inl rfl) hlen
    · by_cases hsmall : file_px_width d + 7 < 2147483648
      · exact truncated_product_ne _ _ _ _ hhlt
          (Or.inl (raw_data_width_of_small _ hw hsmall)) hlen
      · refine truncated_product_ne _ _ _ _ hhlt
          (Or.inr ⟨?_, raw_data_width_of_large _ (by omega) hwlt⟩) hlen
        omega
  exact main_key_length a d k hargc hin h40 h1 hkey hne hcf

/-- A one-byte key and a three-byte key for the 2x2 image, which needs two bytes. -/
theorem C7_size_validation_witness :
    main ⟨4, some img22, some [0x03], true, 8388608⟩ = ⟨some 6, none⟩
      ∧ main ⟨4, some img22, some [0x03, 0xFF, 0x00], true, 8388608⟩ = ⟨some 6, none⟩ :=
  ⟨C7_size_validation ⟨4, some img22, some [0x03], true, 8388608⟩ img22 [0x03] 2 rfl rfl rfl
      (by decide) (by decide) (by decide) (by decide) (by decide) (Or.inl (by decide))
      (Or.inl (by decide)),
    C7_size_validation ⟨4, some img22, some [0x03, 0xFF, 0x00], true, 8388608⟩ img22
      [0x03, 0xFF, 0x00] 2 rfl rfl rfl (by decide) (by decide) (by decide) (by decide)
      (by decide) (Or.inl (by decide)) (Or.inr (by decide))⟩

/-- C8, at the failing input: the header announces 32 x 1073741824 pixels, so the key
should hold `4 * 1073741824 = 2 ^ 32` bytes, yet the empty key passes key validation: the
run ends with exit code 7 when the output cannot be created and with exit code 0 when it
can. The product is held in a `uint32_t` and comes out as 0. -/
theorem C8_key_size_truncated :
    file_header_size img_4gib = 40 ∧ file_bit_count img_4gib = 1
      ∧ file_px_width img_4gib = 32 ∧ file_px_height img_4gib = 1073741824
      ∧ file_raw_width img_4gib = 4
      ∧ file_raw_width img_4gib * (file_px_height img_4gib).toNat = 4294967296
      ∧ file_image_data_size img_4gib = 0
      ∧ main ⟨4, some img_4gib, some [], false, 8388608⟩ = ⟨some 7, none⟩
      ∧ ∃ O, main ⟨4, some img_4gib, some [], true, 8388608⟩ = ⟨some 0, some O⟩ := by
  refine ⟨by decide, by decide, by decide, by decide, by decide, by decide, by decide,
    by decide, ?_⟩
  obtain ⟨o, ho⟩ := row_loop_of_le (file_raw_width img_4gib) (file_table_width img_4gib)
    (by decide) (file_height img_4gib) (zeros (file_raw_width img_4gib))
    (zeros (file_table_width img_4gib)) ⟨[], 0⟩ ⟨img_4gib, file_pixel_offset img_4gib⟩ []
    (zeros_length _) (zeros_length _)
  exact ⟨file_head img_4gib ++ o,
    main_of_loop ⟨4, some img_4gib, some [], true, 8388608⟩ img_4gib [] o rfl rfl rfl
      (by decide) (by decide) (by decide) rfl (by decide) ho⟩

/-- C9, bit-depth rejection: when the input can be opened, its info-header size field is
40 and its bit-depth field is not 1, the run ends with exit code 4 and writes no output,
whatever the key file (absent or of any content) and the output path are. -/
theorem C9_bit_depth_rejected (a : Args) (d : List Byte) (hargc : a.argc = 4)
    (hin : a.input = some d) (h40 : file_header_size d = 40) (h1 : file_bit_count d ≠ 1) :
    main a = ⟨some 4, none⟩ :=
  main_wrong_bit_count a d hargc hin h40 h1

/-- The 2x2 image with bit depth 8, without a key file and with one. -/
theorem C9_bit_depth_rejected_witness :
    file_header_size img22_depth8 = 40 ∧ file_bit_count img22_depth8 = 8
      ∧ main ⟨4, some img22_depth8, none, false, 8388608⟩ = ⟨some 4, none⟩
      ∧ main ⟨4, some img22_depth8, some key22, true, 8388608⟩ = ⟨some 4, none⟩ :=
  ⟨by decide, by decide,
    C9_bit_depth_rejected ⟨4, some img22_depth8, none, false, 8388608⟩ img22_depth8 rfl rfl (by decide)
      (by decide),
    C9_bit_depth_rejected ⟨4, some img22_depth8, some key22, true, 8388608⟩ img22_depth8 rfl rfl
      (by decide) (by decide)⟩

/-- C10 as stated fails: a file of 15 bytes is too short to hold the four-byte field at
offset 14, yet its one byte there, 40, is what the program reads as the header size; the
run goes on to the bit-depth check and ends with exit code 4, not 3. -/
theorem C10_short_input_counterexample :
    file15.length = 15 ∧ main ⟨4, some file15, some key22, true, 8388608⟩ = ⟨some 4, none⟩
      ∧ main ⟨4, some file15, some key22, true, 8388608⟩ ≠ ⟨some 3, none⟩ := by decide

/-- C10, amended: when the input can be opened and the bytes it holds at offsets 14 to 17,
read as a little-endian number with every absent byte counted as 0, do not make 40, the
run ends with exit code 3 and writes no output, whatever the rest of the image, the key
and the output path are. Every input of at most 14 bytes is such an input. -/
theorem C10_header_variant_rejected (a : Args) (d : List Byte) (hargc : a.argc = 4)
    (hin : a.input = some d) (h : file_header_size d ≠ 40 ∨ d.length ≤ 14) :
    main a = ⟨some 3, none⟩ := by
  refine main_wrong_header_size a d hargc hin ?_
  rcases h with h | h
  · exact h
  · rw [file_header_size_of_short d h]
    decide

/-- The empty file, and the 2x2 image with 12 in its header-size field. -/
theorem C10_header_variant_rejected_witness :
    main ⟨4, some [], none, false, 8388608⟩ = ⟨some 3, none⟩
      ∧ main ⟨4, some (img22.set 14 12), some key22, true, 8388608⟩ = ⟨some 3, none⟩ :=
  ⟨C10_header_variant_rejected ⟨4, some [], none, false, 8388608⟩ [] rfl rfl (Or.inr (by decide)),
    C10_header_variant_rejected ⟨4, some (img22.set 14 12), some key22, true, 8388608⟩ (img22.set 14 12)
      rfl rfl (Or.inl (by decide))⟩

/-- C13, at the failing input: for the width 2147483647 the sum `px_width + 7` leaves the
range of `int`; wrapped, it is negative, and the unpadded row width comes out as
4026531841, while a row of 2147483647 pixels takes 268435456 bytes. -/
theorem C13_raw_width_overflow :
    file_px_width img_max_width = 2147483647
      ∧ add_int32 (file_px_width img_max_width) 7 = -2147483642
      ∧ file_raw_width img_max_width = 4026531841
      ∧ ((file_px_width img_max_width).toNat + 7) / 8 = 268435456
      ∧ file_raw_width img_max_width ≠ ((file_px_width img_max_width).toNat + 7) / 8 := by
  decide

/-- C14 as stated fails: the header can hold the width -15, for which the unpadded row
width is 4294967295 and the padded row width wraps to 0, which is less. -/
theorem C14_negative_width_counterexample :
    file_px_width img_neg15 = -15 ∧ raw_data_width (-15) = 4294967295
      ∧ GET_PADDING (raw_data_width (-15)) = 0
      ∧ ¬ raw_data_width (-15) ≤ GET_PADDING (raw_data_width (-15)) := by
  decide

/-- C14, amended: for every width the header can hold other than -38 .. -15, the padded
row width is a multiple of 4, is at least the unpadded width `u`, is below `u + 4`, is `u`
when `u` is a multiple of 4, and is the least multiple of 4 from `u` on. -/
theorem C14_padded_row_width (w : Int) (hlo : -2147483648 ≤ w) (hhi : w < 2147483648)
    (hw : w < -38 ∨ -15 < w) :
    GET_PADDING (raw_data_width w) % 4 = 0
      ∧ raw_data_width w ≤ GET_PADDING (raw_data_width w)
      ∧ GET_PADDING (raw_data_width w) < raw_data_width w + 4
      ∧ (raw_data_width w % 4 = 0 → GET_PADDING (raw_data_width w) = raw_data_width w)
      ∧ ∀ m, m % 4 = 0 → raw_data_width w ≤ m → GET_PADDING (raw_data_width w) ≤ m := by
  obtain ⟨h1, h2, h3, h4⟩ := GET_PADDING_of_le _ (raw_data_width_le w hlo hhi hw)
  refine ⟨h1, h2, h3, h4, ?_⟩
  intro m hm hle
  omega

/-- The width 2 of the scenario: one visible byte, padded to 4. -/
theorem C14_padded_row_width_witness :
    raw_data_width 2 = 1 ∧ GET_PADDING (raw_data_width 2) = 4
      ∧ (GET_PADDING (raw_data_width 2) % 4 = 0
        ∧ raw_data_width 2 ≤ GET_PADDING (raw_data_width 2)
        ∧ GET_PADDING (raw_data_width 2) < raw_data_width 2 + 4
        ∧ (raw_data_width 2 % 4 = 0 → GET_PADDING (raw_data_width 2) = raw_data_width 2)
        ∧ ∀ m, m % 4 = 0 → raw_data_width 2 ≤ m → GET_PADDING (raw_data_width 2) ≤ m) :=
  ⟨by decide, by decide, C14_padded_row_width 2 (by decide) (by decide) (Or.inr (by decide))⟩

/-- C15 as stated fails: the header with width 0 and height 3 that announces 4194304 color
entries has info-header size 40 and bit depth 1, and both of its row widths are 0; yet with
the empty key and a stack of 8 MiB the run does not end with code 0: the color table of
16777216 bytes does not fit the stack and the run is killed where it is declared, with no
exit code and no output. -/
theorem C15_color_table_counterexample :
    file_header_size img_zero_width_many_colors = 40
      ∧ file_bit_count img_zero_width_many_colors = 1
      ∧ file_px_width img_zero_width_many_colors = 0
      ∧ file_px_height img_zero_width_many_colors = 3
      ∧ file_raw_width img_zero_width_many_colors = 0
      ∧ file_table_width img_zero_width_many_colors = 0
      ∧ 4 * file_colors_used img_zero_width_many_colors = 16777216
      ∧ main ⟨4, some img_zero_width_many_colors, some [], true, 8388608⟩ = ⟨none, none⟩ := by
  decide

/-- C15, amended: when the info-header size is 40, the bit depth is 1, the width is 0, the
height is not negative and the color table the header announces fits the stack, both row
widths are 0; every key that is not empty is refused with code 6; and with the empty key
the row loop makes `px_height` passes that write nothing and the run ends with code 0, its
output being the file header, the info header and the `colors_used` color entries as the
program holds them, `54 + 4 * colors_used` bytes, which are the first bytes of the input
when the input has as many. -/
theorem C15_zero_width (a : Args) (d : List Byte) (hargc : a.argc = 4)
    (hin : a.input = some d) (h40 : file_header_size d = 40) (h1 : file_bit_count d = 1)
    (hw : file_px_width d = 0) (hh : 0 ≤ file_px_height d)
    (hcf : 4 * file_colors_used d ≤ a.stack) :
    file_raw_width d = 0 ∧ file_table_width d = 0
      ∧ (∀ k, a.key = some k → k ≠ [] → main a = ⟨some 6, none⟩)
      ∧ (a.key = some [] → a.writable = true →
          row_loop 0 0 (file_px_height d).toNat (zeros 0) (zeros 0) ⟨[], 0⟩
              ⟨d, file_pixel_offset d⟩ [] = some []
            ∧ main a = ⟨some 0, some ((file_header_of d).type ++ (file_header_of d).size
                ++ (file_header_of d).reserved ++ (file_header_of d).offset_bits
                ++ (info_header_of d).bytes ++ indexed_color_of d)⟩
            ∧ ((file_header_of d).type ++ (file_header_of d).size
                ++ (file_header_of d).reserved ++ (file_header_of d).offset_bits
                ++ (info_header_of d).bytes ++ indexed_color_of d).length
              = 54 + 4 * file_colors_used d
            ∧ (54 + 4 * file_colors_used d ≤ d.length →
                (file_header_of d).type ++ (file_header_of d).size
                  ++ (file_header_of d).reserved ++ (file_header_of d).offset_bits
                  ++ (info_header_of d).bytes ++ indexed_color_of d
                = d.take (54 + 4 * file_colors_used d))) := by
  have hrw : file_raw_width d = 0 := by
    unfold file_raw_width
    rw [hw]
    decide
  have htw : file_table_width d = 0 := by
    unfold file_table_width
    rw [hrw]
    decide
  have hsz : file_image_data_size d = 0 := by
    unfold file_image_data_size
    rw [hrw]
    simp
  refine ⟨hrw, htw, ?_, ?_⟩
  · intro k hk hne
    have hlen : k.length ≠ file_image_data_size d := by
      rw [hsz]
      intro h0
      exact hne (List.eq_nil_of_length_eq_zero h0)
    exact main_key_length a d k hargc hin h40 h1 hk hlen hcf
  · intro hk hwr
    have hc := first_failing_check_of_pass a d [] hargc hin hk h40 h1 (by rw [hsz]; rfl) hwr
    have hneed : file_stack_need d ≤ a.stack := by
      unfold file_stack_need
      omega
    obtain ⟨k, rows, hk', hrows, hm⟩ :=
      main_of_fitting_rows a d hin hc hneed (Or.inr (by omega))
    rw [hk, Option.some.injEq] at hk'
    subst hk'
    have hlen := row_loop_length _ _ _ _ _ _ _ rows (zeros_length _) hrows
    rw [htw, Nat.zero_mul] at hlen
    have hnil : rows = [] := List.eq_nil_of_length_eq_zero hlen
    subst hnil
    rw [hrw, htw, file_height_of_nonneg d hh] at hrows
    rw [List.append_nil, file_head_eq] at hm
    refine ⟨hrows, hm, ?_, ?_⟩
    · rw [← file_head_eq, file_head_length]
      rfl
    · intro hlen'
      rw [← file_head_eq]
      exact file_head_of_le d hlen'

/-- A header of 54 bytes with width 0 and height 3: a key of one byte is refused, and
with the empty key the output is the 54 bytes of the input. -/
theorem C15_zero_width_witness :
    file_px_width (bare_header [0, 0, 0, 0] [3, 0, 0, 0]) = 0
      ∧ file_px_height (bare_header [0, 0, 0, 0] [3, 0, 0, 0]) = 3
      ∧ main ⟨4, some (bare_header [0, 0, 0, 0] [3, 0, 0, 0]), some [0x5A], true, 8388608⟩
        = ⟨some 6, none⟩
      ∧ main ⟨4, some (bare_header [0, 0, 0, 0] [3, 0, 0, 0]), some [], true, 8388608⟩
        = ⟨some 0, some (bare_header [0, 0, 0, 0] [3, 0, 0, 0])⟩
      ∧ file_raw_width (bare_header [0, 0, 0, 0] [3, 0, 0, 0]) = 0
      ∧ file_table_width (bare_header [0, 0, 0, 0] [3, 0, 0, 0]) = 0 :=
  ⟨by decide, by decide,
    (C15_zero_width
      ⟨4, some (bare_header [0, 0, 0, 0] [3, 0, 0, 0]), some [0x5A], true, 8388608⟩
      (bare_header [0, 0, 0, 0] [3, 0, 0, 0]) rfl rfl (by decide) (by decide) (by decide)
      (by decide) (by decide)).2.2.1 [0x5A] rfl (by decide),
    by decide,
    (C15_zero_width ⟨4, some (bare_header [0, 0, 0, 0] [3, 0, 0, 0]), some [], true, 8388608⟩
      (bare_header [0, 0, 0, 0] [3, 0, 0, 0]) rfl rfl (by decide) (by decide) (by decide)
      (by decide) (by decide)).1,
    (C15_zero_width ⟨4, some (bare_header [0, 0, 0, 0] [3, 0, 0, 0]), some [], true, 8388608⟩
      (bare_header [0, 0, 0, 0] [3, 0, 0, 0]) rfl rfl (by decide) (by decide) (by decide)
      (by decide) (by decide)).2.1⟩

/-- C16 as stated fails: on the header with width -31 and height -1, a key of the three
bytes the program asks for and a stack of 8 MiB, the row loop does not make its 4294967295
passes: the unpadded width is 4294967293, the key buffer of that many bytes does not fit
the stack and the run is killed where it is declared, before the output is created. -/
theorem C16_negative_width_counterexample :
    file_header_size img_neg31 = 40 ∧ file_bit_count img_neg31 = 1
      ∧ file_px_width img_neg31 = -31 ∧ file_px_height img_neg31 = -1
      ∧ file_raw_width img_neg31 = 4294967293 ∧ file_table_width img_neg31 = 0
      ∧ (file_raw_width img_neg31 * (4294967296 + file_px_height img_neg31).toNat)
          % 4294967296 = 3
      ∧ main ⟨4, some img_neg31, some [0x5A, 0x5A, 0x5A], true, 8388608⟩ = ⟨none, none⟩ := by
  decide

/-- C16, amended: when the info-header size is 40, the bit depth is 1 and the height `h` is
negative, the height is used as `2 ^ 32 + h` and the key length asked for is
`(raw_width * (2 ^ 32 + h)) mod 2 ^ 32`: when the color table fits the stack, any other
length ends the run with code 6; and when the color table, the key buffer and the row
buffer fit the stack and the unpadded row width does not exceed the padded one, with a key
of that length the row loop makes `2 ^ 32 + h` passes, each writing one padded row, and the
run ends with code 0. -/
theorem C16_negative_height (a : Args) (d k : List Byte) (hargc : a.argc = 4)
    (hin : a.input = some d) (hk : a.key = some k) (h40 : file_header_size d = 40)
    (h1 : file_bit_count d = 1) (hh : file_px_height d < 0) :
    file_height d = (4294967296 + file_px_height d).toNat
      ∧ (4 * file_colors_used d ≤ a.stack →
          k.length ≠ (file_raw_width d * (4294967296 + file_px_height d).toNat) % 4294967296 →
          main a = ⟨some 6, none⟩)
      ∧ (file_stack_need d ≤ a.stack → file_raw_width d ≤ file_table_width d →
          k.length = (file_raw_width d * (4294967296 + file_px_height d).toNat) % 4294967296 →
          a.writable = true →
          ∃ rows, row_loop (file_raw_width d) (file_table_width d)
                (4294967296 + file_px_height d).toNat (zeros (file_raw_width d))
                (zeros (file_table_width d)) ⟨k, 0⟩ ⟨d, file_pixel_offset d⟩ [] = some rows
            ∧ rows.length = file_table_width d * (4294967296 + file_px_height d).toNat
            ∧ main a = ⟨some 0, some (file_head d ++ rows)⟩) := by
  have hheight := file_height_of_neg d hh
  have hsz : file_image_data_size d
      = (file_raw_width d * (4294967296 + file_px_height d).toNat) % 4294967296 := by
    unfold file_image_data_size
    rw [hheight]
  refine ⟨hheight, ?_, ?_⟩
  · intro hcf hne
    rw [← hsz] at hne
    exact main_key_length a d k hargc hin h40 h1 hk hne hcf
  · intro hneed hfit hlen hwr
    rw [← hsz] at hlen
    have hc := first_failing_check_of_pass a d k hargc hin hk h40 h1 hlen hwr
    obtain ⟨k', rows, hk', hrows, hm⟩ :=
      main_of_fitting_rows a d hin hc hneed (Or.inr hfit)
    rw [hk, Option.some.injEq] at hk'
    subst hk'
    have hl := row_loop_length _ _ _ _ _ _ _ rows (zeros_length _) hrows
    rw [hheight] at hrows hl
    exact ⟨rows, hrows, hl, hm⟩

/-- A header with width 32 and height -2147483648: the key asked for has
`(4 * 2147483648) mod 2 ^ 32 = 0` bytes; a key of one byte is refused, and with the empty
key the loop writes 2147483648 rows of four bytes. -/
theorem C16_negative_height_witness :
    file_px_height (bare_header [32, 0, 0, 0] [0, 0, 0, 0x80]) = -2147483648
      ∧ file_height (bare_header [32, 0, 0, 0] [0, 0, 0, 0x80]) = 2147483648
      ∧ main ⟨4, some (bare_header [32, 0, 0, 0] [0, 0, 0, 0x80]), some [0x5A], true, 8388608⟩
        = ⟨some 6, none⟩
      ∧ ∃ rows, row_loop (file_raw_width (bare_header [32, 0, 0, 0] [0, 0, 0, 0x80]))
            (file_table_width (bare_header [32, 0, 0, 0] [0, 0, 0, 0x80]))
            (4294967296 + file_px_height (bare_header [32, 0, 0, 0] [0, 0, 0, 0x80])).toNat
            (zeros (file_raw_width (bare_header [32, 0, 0, 0] [0, 0, 0, 0x80])))
            (zeros (file_table_width (bare_header [32, 0, 0, 0] [0, 0, 0, 0x80]))) ⟨[], 0⟩
            ⟨bare_header [32, 0, 0, 0] [0, 0, 0, 0x80],
              file_pixel_offset (bare_header [32, 0, 0, 0] [0, 0, 0, 0x80])⟩ [] = some rows
          ∧ rows.length = file_table_width (bare_header [32, 0, 0, 0] [0, 0, 0, 0x80])
            * (4294967296 + file_px_height (bare_header [32, 0, 0, 0] [0, 0, 0, 0x80])).toNat
          ∧ main ⟨4, some (bare_header [32, 0, 0, 0] [0, 0, 0, 0x80]), some [], true, 8388608⟩
            = ⟨some 0, some (file_head (bare_header [32, 0, 0, 0] [0, 0, 0, 0x80]) ++ rows)⟩ :=
  ⟨by decide, by decide,
    (C16_negative_height
      ⟨4, some (bare_header [32, 0, 0, 0] [0, 0, 0, 0x80]), some [0x5A], true, 8388608⟩
      (bare_header [32, 0, 0, 0] [0, 0, 0, 0x80]) [0x5A] rfl rfl rfl (by decide) (by decide)
      (by decide)).2.1 (by decide) (by decide),
    (C16_negative_height
      ⟨4, some (bare_header [32, 0, 0, 0] [0, 0, 0, 0x80]), some [], true, 8388608⟩
      (bare_header [32, 0, 0, 0] [0, 0, 0, 0x80]) [] rfl rfl rfl (by decide) (by decide)
      (by decide)).2.2 (by decide) (by decide) (by decide) rfl⟩

/-- C17 as stated fails: the header with width 48000000 and height 1 passes the header
checks and, with the key of 6000000 bytes the program asks for, the key check; its pixel
data ends after 0 complete rows, and 0 is less than the height 1; yet with a stack of 8 MiB
the run does not end with code 0 and writes no row: the key buffer of 6000000 bytes fits
the stack, the output is created and receives the 54 header bytes, and the row buffer of
6000000 bytes, declared next, no longer fits, so the run is killed there. -/
theorem C17_wide_row_counterexample :
    first_failing_check ⟨4, some img_wide_one_row, some key_wide, true, 8388608⟩ = 0
      ∧ file_px_width img_wide_one_row = 48000000 ∧ file_px_height img_wide_one_row = 1
      ∧ file_raw_width img_wide_one_row = 6000000
      ∧ file_table_width img_wide_one_row = 6000000
      ∧ key_wide.length = file_raw_width img_wide_one_row * file_height img_wide_one_row
      ∧ img_wide_one_row.length
          = file_pixel_offset img_wide_one_row + file_table_width img_wide_one_row * 0
      ∧ (0 : Int) < file_px_height img_wide_one_row
      ∧ main ⟨4, some img_wide_one_row, some key_wide, true, 8388608⟩
          = ⟨none, some img_wide_one_row⟩ := by
  have hlen : key_wide.length = 6000000 := List.length_replicate _ _
  have hsz : key_wide.length = file_image_data_size img_wide_one_row := by
    rw [hlen]
    decide
  have hneed : ¬ file_stack_need img_wide_one_row
      ≤ (⟨4, some img_wide_one_row, some key_wide, true, 8388608⟩ : Args).stack := by
    decide
  have hkf : 4 * file_colors_used img_wide_one_row + file_raw_width img_wide_one_row
      ≤ (⟨4, some img_wide_one_row, some key_wide, true, 8388608⟩ : Args).stack := by
    decide
  have hhead : file_head img_wide_one_row = img_wide_one_row := by decide
  refine ⟨first_failing_check_of_pass _ img_wide_one_row key_wide rfl rfl rfl (by decide)
    (by decide) hsz rfl, by decide, by decide, by decide, by decide, ?_, by decide,
    by decide, ?_⟩
  · rw [hlen]
    decide
  · rw [main_pass _ img_wide_one_row key_wide rfl rfl rfl (by decide) (by decide) hsz rfl,
      if_neg hneed, if_pos hkf, hhead]

/-- C17, amended: when the input passes the header checks, the color table, the key buffer
and the row buffer fit the stack, the unpadded row width does not exceed the padded one,
the key passes the key check and holds a chunk for every row, the output can
be created and the pixel data ends after `m` complete rows, the run still ends with code 0
and writes `height` rows; every output row `i` from `m` on (there is no input byte left
for it) is the row before it in the output, for the first row the
zeroed row buffer, with its leading `raw_width` bytes XORed with key chunk `i`. -/
theorem C17_short_reads (a : Args) (d k : List Byte) (m : Nat) (hargc : a.argc = 4)
    (hin : a.input = some d) (hk : a.key = some k) (h40 : file_header_size d = 40)
    (h1 : file_bit_count d = 1) (hwr : a.writable = true)
    (hneed : file_stack_need d ≤ a.stack)
    (hfit : file_raw_width d ≤ file_table_width d)
    (hsz : k.length = file_image_data_size d)
    (hklen : k.length = file_raw_width d * file_height d)
    (hlen : d.length = file_pixel_offset d + file_table_width d * m) :
    ∃ O, main a = ⟨some 0, some O⟩
      ∧ O.length = file_pixel_offset d + file_table_width d * file_height d
      ∧ ∀ i, m ≤ i → i < file_height d →
        xor_visible
            (if i = 0 then zeros (file_table_width d)
              else (O.drop (file_pixel_offset d + (i - 1) * file_table_width d)).take
                (file_table_width d))
            ((k.drop (i * file_raw_width d)).take (file_raw_width d))
          = some ((O.drop (file_pixel_offset d + i * file_table_width d)).take
              (file_table_width d)) := by
  have hc := first_failing_check_of_pass a d k hargc hin hk h40 h1 hsz hwr
  obtain ⟨k', rows, hk', hrows, hmain⟩ :=
    main_of_fitting_rows a d hin hc hneed (Or.inr hfit)
  rw [hk, Option.some.injEq] at hk'
  subst hk'
  have hl := row_loop_length _ _ _ _ _ _ _ rows (zeros_length _) hrows
  have hhl := file_head_length d
  refine ⟨_, hmain, by rw [List.length_append, hhl, hl], ?_⟩
  intro i hmi hi
  have hstale := row_loop_stale (file_raw_width d) (file_table_width d) (file_height d)
    _ _ ⟨k, 0⟩ ⟨d, file_pixel_offset d⟩ rows (zeros_length _) (zeros_length _)
    (by simp only [rest, List.drop_zero]; omega) hrows i hi
    (by
      simp only [rest, List.length_drop]
      have : file_table_width d * m ≤ i * file_table_width d := by
        rw [Nat.mul_comm]
        exact Nat.mul_le_mul_right _ hmi
      omega)
  have e : ∀ j, List.drop (file_pixel_offset d + j) (file_head d ++ rows) = List.drop j rows := by
    intro j
    rw [← hhl, List.drop_append]
  rw [e, e]
  simpa [rest] using hstale

/-- The 2x2 image cut after its first row: code 0, two rows written, the second being
the first output row `03 AA BB CC` with its visible byte XORed with `FF`. -/
theorem C17_short_reads_witness :
    img22_one_row.length = file_pixel_offset img22_one_row + file_table_width img22_one_row * 1
      ∧ main ⟨4, some img22_one_row, some key22, true, 8388608⟩ = ⟨some 0, some out22_one_row⟩
      ∧ out22_one_row.drop 62 = [0x03, 0xAA, 0xBB, 0xCC, 0xFC, 0xAA, 0xBB, 0xCC]
      ∧ ∃ O, main ⟨4, some img22_one_row, some key22, true, 8388608⟩ = ⟨some 0, some O⟩
        ∧ O.length = file_pixel_offset img22_one_row
            + file_table_width img22_one_row * file_height img22_one_row
        ∧ ∀ i, 1 ≤ i → i < file_height img22_one_row →
          xor_visible
              (if i = 0 then zeros (file_table_width img22_one_row)
                else (O.drop (file_pixel_offset img22_one_row
                  + (i - 1) * file_table_width img22_one_row)).take
                  (file_table_width img22_one_row))
              ((key22.drop (i * file_raw_width img22_one_row)).take
                (file_raw_width img22_one_row))
            = some ((O.drop (file_pixel_offset img22_one_row
                + i * file_table_width img22_one_row)).take
                (file_table_width img22_one_row)) :=
  ⟨by decide, by decide, by decide,
    C17_short_reads ⟨4, some img22_one_row, some key22, true, 8388608⟩ img22_one_row key22 1
      rfl rfl rfl (by decide) (by decide) rfl (by decide) (by decide) (by decide) (by decide)
      (by decide)⟩

/-- C18, unvalidated fields: when two inputs agree at every offset outside the fields
`type`, `size`, `reserved`, `offset_bits`, `planes`, `compression`, `image_size`, the two
resolutions and `color_important`, the runs on them with the same other arguments end
with the same code; when the first ends with code 0 and output `O₁`, the second ends with
code 0 and an output of the same length that agrees with `O₁` at every offset outside
those fields; and the rows of both outputs are the rows the loop reads from offset
`54 + 4 * colors_used` of the input, whatever `offset_bits` holds. -/
theorem C18_unvalidated_fields (a : Args) (d₁ d₂ : List Byte) (hin : a.input = some d₁)
    (h : ∀ i, unvalidated_offset i = false → d₁[i]? = d₂[i]?) :
    (main { a with input := some d₂ }).code = (main a).code
      ∧ ∀ O₁, main a = ⟨some 0, some O₁⟩ →
        ∃ O₂, main { a with input := some d₂ } = ⟨some 0, some O₂⟩
          ∧ O₂.length = O₁.length
          ∧ (∀ i, unvalidated_offset i = false → O₂[i]? = O₁[i]?)
          ∧ ∃ k rows, a.key = some k
            ∧ row_loop (file_raw_width d₁) (file_table_width d₁) (file_height d₁)
                (zeros (file_raw_width d₁)) (zeros (file_table_width d₁)) ⟨k, 0⟩
                ⟨d₁, 54 + 4 * file_colors_used d₁⟩ [] = some rows
            ∧ O₁.drop (54 + 4 * file_colors_used d₁) = rows
            ∧ O₂.drop (54 + 4 * file_colors_used d₁) = rows := by
  obtain ⟨hc, hoff, hloop⟩ := main_congr_unvalidated a d₁ d₂ hin h
  obtain ⟨hcu, hrw, hneed⟩ := stack_need_congr_unvalidated d₁ d₂ h
  by_cases h0 : first_failing_check a = 0
  · obtain ⟨d', k, _, hin', hk, _, _, _, _, hm₁⟩ := main_of_no_failing_check a h0
    rw [hin, Option.some.injEq] at hin'
    subst hin'
    obtain ⟨d'', k', _, hin'', hk', _, _, _, _, hm₂⟩ :=
      main_of_no_failing_check { a with input := some d₂ } (hc.trans h0)
    simp only [Option.some.injEq] at hin''
    subst hin''
    simp only [hk, Option.some.injEq] at hk'
    subst hk'
    rw [hloop k, hneed, hcu, hrw] at hm₂
    by_cases hn : file_stack_need d₁ ≤ a.stack
    · rw [if_pos hn] at hm₁ hm₂
      cases hrows : row_loop (file_raw_width d₁) (file_table_width d₁) (file_height d₁)
          (zeros (file_raw_width d₁)) (zeros (file_table_width d₁)) ⟨k, 0⟩
          ⟨d₁, file_pixel_offset d₁⟩ [] with
      | none =>
        rw [hrows] at hm₁ hm₂
        rw [hm₁, hm₂]
        exact ⟨rfl, fun O₁ hO => by simp at hO⟩
      | some rows =>
        rw [hrows] at hm₁ hm₂
        rw [hm₁, hm₂]
        refine ⟨rfl, ?_⟩
        intro O₁ hO
        simp only [Option.some.injEq, Result.mk.injEq, true_and] at hO
        subst hO
        have hl₁ := file_head_length d₁
        have hl₂ := file_head_length d₂
        refine ⟨file_head d₂ ++ rows, rfl, ?_, ?_, k, rows, hk, hrows, ?_, ?_⟩
        · rw [List.length_append, List.length_append, hl₁, hl₂, hoff]
        · intro i hi
          exact file_head_get_congr d₁ d₂ rows h i hi
        · show List.drop (file_pixel_offset d₁) (file_head d₁ ++ rows) = rows
          rw [← hl₁, List.drop_left]
        · show List.drop (file_pixel_offset d₁) (file_head d₂ ++ rows) = rows
          rw [← hoff, ← hl₂, List.drop_left]
    · rw [if_neg hn] at hm₁ hm₂
      rw [hm₁, hm₂]
      refine ⟨?_, fun O₁ hO => ?_⟩
      · split_ifs <;> rfl
      · split_ifs at hO <;> simp at hO
  · have hc' : first_failing_check { a with input := some d₂ } ≠ 0 := by
      rw [hc]
      exact h0
    have e₁ := main_of_failing_check_stack a d₁ hin h0
    have e₂ := main_of_failing_check_stack { a with input := some d₂ } d₂ rfl hc'
    rw [hc, hcu, hrw] at e₂
    refine ⟨congrArg Result.code (e₂.trans e₁.symm), fun O₁ hO => ?_⟩
    · rcases main_of_failing_check a h0 with hm | hm
      · rw [hm] at hO
        simp only [Option.some.injEq, Result.mk.injEq] at hO
        exact absurd hO.1 h0
      · rw [hm] at hO
        simp at hO

/-- The 2x2 image with every unvalidated field changed: same code, same rows. -/
theorem C18_unvalidated_fields_witness :
    main args22 = ⟨some 0, some out22⟩
      ∧ main ⟨4, some img22_other_fields, some key22, true, 8388608⟩
        = ⟨some 0, some (img22_other_fields.take 62 ++ out22.drop 62)⟩
      ∧ (main { args22 with input := some img22_other_fields }).code = (main args22).code
      ∧ ∀ O₁, main args22 = ⟨some 0, some O₁⟩ →
        ∃ O₂, main { args22 with input := some img22_other_fields } = ⟨some 0, some O₂⟩
          ∧ O₂.length = O₁.length
          ∧ (∀ i, unvalidated_offset i = false → O₂[i]? = O₁[i]?)
          ∧ ∃ k rows, args22.key = some k
            ∧ row_loop (file_raw_width img22) (file_table_width img22) (file_height img22)
                (zeros (file_raw_width img22)) (zeros (file_table_width img22)) ⟨k, 0⟩
                ⟨img22, 54 + 4 * file_colors_used img22⟩ [] = some rows
            ∧ O₁.drop (54 + 4 * file_colors_used img22) = rows
            ∧ O₂.drop (54 + 4 * file_colors_used img22) = rows :=
  ⟨main_args22, by decide,
    C18_unvalidated_fields args22 img22 img22_other_fields rfl (by
      intro i hi
      rw [unvalidated_offset_false] at hi
      have h70 : ∀ j, 70 ≤ j → img22[j]? = img22_other_fields[j]? := by
        intro j hj
        rw [List.getElem?_eq_none (by simpa [img22] using hj),
          List.getElem?_eq_none (by simpa [img22_other_fields] using hj)]
      by_cases hlt : i < 70
      · interval_cases i <;> first | omega | rfl
      · exact h70 i (by omega))⟩

/-- C19, key composition: when the input has exactly `54 + 4 * colors_used + table_width *
height` bytes and the run with key `k₁` ends with code 0 and output `O₁`, then for every
key `k₂` of the same length the run on `O₁` with `k₂` ends with code 0, and its output is
the output of the one run on the input with the bytewise XOR of `k₁` and `k₂`; and the run
with the all-zero key of that length gives back the input. -/
theorem C19_key_composition (a : Args) (d k₁ k₂ O₁ : List Byte) (hin : a.input = some d)
    (hlayout : d.length
      = 54 + 4 * file_colors_used d + file_table_width d * file_height d)
    (hlen : k₂.length = k₁.length)
    (hrun : main { a with key := some k₁ } = ⟨some 0, some O₁⟩) :
    (∃ O₂, main { a with input := some O₁, key := some k₂ } = ⟨some 0, some O₂⟩
        ∧ main { a with key := some (xor_keys k₁ k₂) } = ⟨some 0, some O₂⟩)
      ∧ main { a with key := some (zeros k₁.length) } = ⟨some 0, some d⟩ := by
  have hneed : file_stack_need d ≤ a.stack :=
    main_zero_fits { a with key := some k₁ } d O₁ hin hrun
  obtain ⟨hargc, h40, h1, hwr, k, o₁, hk, hsz, ho₁, rfl⟩ :=
    main_zero_inv { a with key := some k₁ } d O₁ hin hrun
  simp only [Option.some.injEq] at hk
  subst hk
  simp only at hargc hwr
  have hoff : file_pixel_offset d ≤ d.length := by unfold file_pixel_offset; omega
  obtain ⟨v40, v1, vrw, vtw, vh, voff, vsz, vhead, vrest⟩ := views_of_output d o₁ hoff
  have hfit := row_loop_fits _ _ _ _ _ _ _ _ _ (zeros_length _) (zeros_length _) ho₁
  have hrestd : (rest ⟨d, file_pixel_offset d⟩).length = file_table_width d * file_height d := by
    unfold rest
    simp only [List.length_drop]
    unfold file_pixel_offset
    omega
  have hk0 : ∀ l : List Byte, rest ⟨l, 0⟩ = l := fun l => by simp [rest]
  have hzz : ∀ n, xor_keys (zeros n) (zeros n) = zeros n := fun n => by
    rw [xor_keys_self, zeros_length]
  obtain ⟨o₂, ho₂⟩ := row_loop_total (file_raw_width d) (file_table_width d) (file_height d)
    hfit (zeros (file_raw_width d)) (zeros (file_table_width d)) ⟨k₂, 0⟩
    ⟨file_head d ++ o₁, file_pixel_offset d⟩ [] (zeros_length _) (zeros_length _)
  have hcomp := row_loop_compose (file_raw_width d) (file_table_width d) (file_height d)
    (zeros (file_raw_width d)) (zeros (file_raw_width d)) (zeros (file_table_width d))
    (zeros (file_table_width d)) (zeros (file_table_width d)) ⟨k₁, 0⟩ ⟨k₂, 0⟩
    ⟨xor_keys k₁ k₂, 0⟩ ⟨d, file_pixel_offset d⟩ ⟨file_head d ++ o₁, file_pixel_offset d⟩
    ⟨d, file_pixel_offset d⟩ o₁ o₂ (zeros_length _) (zeros_length _) (zeros_length _)
    (zeros_length _) (zeros_length _) (by rw [hk0, hk0, hlen]) (by rw [hk0, hk0, hk0]) hrestd
    rfl ho₁ vrest ho₂
  rw [hzz] at hcomp
  have hrt := row_loop_roundtrip (file_raw_width d) (file_table_width d) (file_height d)
    (zeros (file_raw_width d)) (zeros (file_table_width d)) (zeros (file_table_width d))
    ⟨k₁, 0⟩ ⟨d, file_pixel_offset d⟩ ⟨file_head d ++ o₁, file_pixel_offset d⟩ o₁
    (zeros_length _) (zeros_length _) hrestd ho₁ vrest
  have hzero := row_loop_compose (file_raw_width d) (file_table_width d) (file_height d)
    (zeros (file_raw_width d)) (zeros (file_raw_width d)) (zeros (file_table_width d))
    (zeros (file_table_width d)) (zeros (file_table_width d)) ⟨k₁, 0⟩ ⟨k₁, 0⟩
    ⟨zeros k₁.length, 0⟩ ⟨d, file_pixel_offset d⟩ ⟨file_head d ++ o₁, file_pixel_offset d⟩
    ⟨d, file_pixel_offset d⟩ o₁ (rest ⟨d, file_pixel_offset d⟩) (zeros_length _)
    (zeros_length _) (zeros_length _) (zeros_length _) (zeros_length _) rfl
    (by rw [hk0, hk0, xor_keys_self]) hrestd rfl ho₁ vrest hrt
  rw [hzz] at hzero
  refine ⟨⟨file_head d ++ o₂, ?_, ?_⟩, ?_⟩
  · have := main_of_loop { a with input := some (file_head d ++ o₁), key := some k₂ }
      (file_head d ++ o₁) k₂ o₂ hargc rfl rfl (v40.trans h40) (v1.trans h1)
      (by rw [vsz, hlen]; exact hsz) hwr
      (by rw [stack_need_of_output d o₁ hoff]; exact hneed)
      (by rw [vrw, vtw, vh, voff]; exact ho₂)
    rw [vhead] at this
    exact this
  · exact main_of_loop { a with key := some (xor_keys k₁ k₂) } d (xor_keys k₁ k₂) o₂ hargc hin
      rfl h40 h1 (by rw [xor_keys_length _ _ hlen.symm]; exact hsz) hwr hneed hcomp
  · have := main_of_loop { a with key := some (zeros k₁.length) } d (zeros k₁.length)
      (rest ⟨d, file_pixel_offset d⟩) hargc hin rfl h40 h1 (by rw [zeros_length]; exact hsz)
      hwr hneed hzero
    rw [this, file_head_of_le d hoff]
    unfold rest
    simp only [List.take_append_drop]

/-- On the 2x2 image: key `03 FF`, then key `0F F0` on the result, gives what the one key
`0C 0F` gives; and the key `00 00` gives back the image. -/
theorem C19_key_composition_witness :
    main { args22 with key := some key22 } = ⟨some 0, some out22⟩
      ∧ xor_keys key22 [0x0F, 0xF0] = [0x0C, 0x0F]
      ∧ (∃ O₂, main { args22 with input := some out22, key := some [0x0F, 0xF0] }
            = ⟨some 0, some O₂⟩
          ∧ main { args22 with key := some (xor_keys key22 [0x0F, 0xF0]) } = ⟨some 0, some O₂⟩)
      ∧ main { args22 with key := some (zeros key22.length) } = ⟨some 0, some img22⟩ :=
  ⟨main_args22, by decide,
    C19_key_composition args22 img22 key22 [0x0F, 0xF0] out22 rfl img22_layout rfl
      main_args22⟩

/-- C20 as stated fails in its last part: the 2x2 image and the same image followed by
one more byte both hold all their rows and give, with the same key, the same output, so
the output and the key do not determine the image. -/
theorem C20_trailing_byte_counterexample :
    main ⟨4, some img22, some key22, true, 8388608⟩ = ⟨some 0, some out22⟩
      ∧ main ⟨4, some img22_trailing, some key22, true, 8388608⟩ = ⟨some 0, some out22⟩
      ∧ file_pixel_offset img22 + file_table_width img22 * file_height img22 ≤ img22.length
      ∧ file_pixel_offset img22_trailing
          + file_table_width img22_trailing * file_height img22_trailing
        ≤ img22_trailing.length
      ∧ img22 ≠ img22_trailing := by
  decide

/-- C20, amended: when the input holds all its rows and the runs with two keys `k₁` and
`k₂` of `raw_width * height` bytes end with code 0, the two outputs have the same length
and the same bytes before the rows, and byte `j` of row `i` differs between them exactly
when `j` is below the unpadded width and the key bytes at `i * raw_width + j` differ; so
different keys give different outputs (the output and the image determine the key), and
the output and the key determine the image up to its last row: an input that gives the
same output with the same key has the same first `54 + 4 * colors_used + table_width *
height` bytes. -/
theorem C20_key_injectivity (a : Args) (d k₁ k₂ O₁ O₂ : List Byte) (hin : a.input = some d)
    (hrows : file_pixel_offset d + file_table_width d * file_height d ≤ d.length)
    (hk₁ : k₁.length = file_raw_width d * file_height d)
    (hk₂ : k₂.length = file_raw_width d * file_height d)
    (h₁ : main { a with key := some k₁ } = ⟨some 0, some O₁⟩)
    (h₂ : main { a with key := some k₂ } = ⟨some 0, some O₂⟩) :
    (O₁.length = O₂.length
        ∧ O₁.take (file_pixel_offset d) = O₂.take (file_pixel_offset d))
      ∧ (∀ i j, i < file_height d → j < file_table_width d →
          (O₁[file_pixel_offset d + (i * file_table_width d + j)]?
              ≠ O₂[file_pixel_offset d + (i * file_table_width d + j)]?
            ↔ j < file_raw_width d
              ∧ k₁[i * file_raw_width d + j]? ≠ k₂[i * file_raw_width d + j]?))
      ∧ (k₁ ≠ k₂ → O₁ ≠ O₂)
      ∧ (∀ d', file_pixel_offset d' + file_table_width d' * file_height d' ≤ d'.length →
          main { a with input := some d', key := some k₁ } = ⟨some 0, some O₁⟩ →
          d'.take (file_pixel_offset d + file_table_width d * file_height d)
            = d.take (file_pixel_offset d + file_table_width d * file_height d)) := by
  obtain ⟨hargc, h40, h1, hwr, k, o₁, hk, _, ho₁, rfl⟩ :=
    main_zero_inv { a with key := some k₁ } d O₁ hin h₁
  simp only [Option.some.injEq] at hk
  subst hk
  obtain ⟨_, _, _, _, k', o₂, hk', _, ho₂, rfl⟩ :=
    main_zero_inv { a with key := some k₂ } d O₂ hin h₂
  simp only [Option.some.injEq] at hk'
  subst hk'
  have hl₁ := row_loop_length _ _ _ _ _ _ _ o₁ (zeros_length _) ho₁
  have hl₂ := row_loop_length _ _ _ _ _ _ _ o₂ (zeros_length _) ho₂
  have hhl := file_head_length d
  have hfi : file_table_width d * file_height d ≤ (rest ⟨d, file_pixel_offset d⟩).length := by
    unfold rest
    simp only [List.length_drop]
    omega
  have hk0 : ∀ l : List Byte, rest ⟨l, 0⟩ = l := fun l => by simp [rest]
  have hdiff : ∀ i j, i < file_height d → j < file_table_width d →
      ((file_head d ++ o₁)[file_pixel_offset d + (i * file_table_width d + j)]?
          ≠ (file_head d ++ o₂)[file_pixel_offset d + (i * file_table_width d + j)]?
        ↔ j < file_raw_width d
          ∧ k₁[i * file_raw_width d + j]? ≠ k₂[i * file_raw_width d + j]?) := by
    intro i j hi hj
    have := row_loop_get_diff (file_raw_width d) (file_table_width d) (file_height d) _ _
      ⟨k₁, 0⟩ ⟨k₂, 0⟩ ⟨d, file_pixel_offset d⟩ o₁ o₂ (zeros_length _) (zeros_length _) hfi
      (by rw [hk0]; omega) (by rw [hk0]; omega) ho₁ ho₂ i j hi hj
    rw [hk0, hk0] at this
    rw [List.getElem?_append_right (by rw [hhl]; omega),
      List.getElem?_append_right (by rw [hhl]; omega), hhl, Nat.add_sub_cancel_left]
    exact this
  refine ⟨⟨?_, ?_⟩, hdiff, ?_, ?_⟩
  · rw [List.length_append, List.length_append, hl₁, hl₂]
  · rw [← hhl, List.take_left, List.take_left]
  · intro hne hO
    obtain ⟨t, ht, htne⟩ := exists_getElem?_ne_of_ne k₁ k₂ (hk₁.trans hk₂.symm) hne
    rw [hk₁] at ht
    have hrw : 0 < file_raw_width d := by
      rcases Nat.eq_zero_or_pos (file_raw_width d) with h0 | h0
      · rw [h0, Nat.zero_mul] at ht
        omega
      · exact h0
    have hi : t / file_raw_width d < file_height d := Nat.div_lt_of_lt_mul ht
    have hj : t % file_raw_width d < file_raw_width d := Nat.mod_lt _ hrw
    have hfit := row_loop_fits _ _ _ _ _ _ _ _ _ (zeros_length _) (zeros_length _) ho₁
    have hle : file_raw_width d ≤ file_table_width d := by
      rcases hfit with h0 | hle
      · rw [h0] at hi
        exact absurd hi (Nat.not_lt_zero _)
      · exact hle
    have ht' : t / file_raw_width d * file_raw_width d + t % file_raw_width d = t := by
      rw [Nat.mul_comm]
      exact Nat.div_add_mod t _
    have := (hdiff (t / file_raw_width d) (t % file_raw_width d) hi (by omega)).mpr
      ⟨hj, by rw [ht']; exact htne⟩
    exact this (by rw [hO])
  · intro d' hrows' hrun'
    obtain ⟨_, _, _, _, k', o', hk', _, ho', hO⟩ :=
      main_zero_inv { a with input := some d', key := some k₁ } d' _ rfl hrun'
    simp only [Option.some.injEq] at hk'
    subst hk'
    have hoff : file_pixel_offset d ≤ d.length := by omega
    have hoff' : file_pixel_offset d' ≤ d'.length := by omega
    obtain ⟨_, _, vrw, vtw, vh, voff, _, vhead, _⟩ := views_of_output d o₁ hoff
    obtain ⟨_, _, vrw', vtw', vh', voff', _, vhead', _⟩ := views_of_output d' o' hoff'
    rw [← hO] at vrw' vtw' vh' voff' vhead'
    have erw : file_raw_width d' = file_raw_width d := vrw'.symm.trans vrw
    have etw : file_table_width d' = file_table_width d := vtw'.symm.trans vtw
    have eh : file_height d' = file_height d := vh'.symm.trans vh
    have eoff : file_pixel_offset d' = file_pixel_offset d := voff'.symm.trans voff
    have ehead : file_head d' = file_head d := vhead'.symm.trans vhead
    rw [ehead] at hO
    have eo : o₁ = o' := List.append_cancel_left hO
    subst eo
    rw [erw, etw, eh, eoff] at ho'
    rw [etw, eh, eoff] at hrows'
    have hdet := row_loop_input_determined (file_raw_width d) (file_table_width d)
      (file_height d) _ _ _ ⟨k₁, 0⟩ ⟨d', file_pixel_offset d⟩ ⟨d, file_pixel_offset d⟩ o₁
      (zeros_length _) (zeros_length _)
      (by unfold rest; simp only [List.length_drop]; omega) hfi ho' ho₁
    unfold rest at hdet
    simp only at hdet
    rw [List.take_add, List.take_add, hdet, ← file_head_of_le d hoff, ← ehead,
      ← eoff, file_head_of_le d' hoff']

/-- On the 2x2 image, keys `03 FF` and `03 0F` differ in their second byte only, and
the outputs differ in the visible byte of the second row (offset 66) and not in that of
the first (offset 62). -/
theorem C20_key_injectivity_witness :
    main { args22 with key := some [0x03, 0x0F] }
        = ⟨some 0, some (out22.take 66 ++ [0xF0, 0x11, 0x22, 0x33])⟩
      ∧ (out22[file_pixel_offset img22 + (1 * file_table_width img22 + 0)]?
            ≠ (out22.take 66 ++ [0xF0, 0x11, 0x22, 0x33])[file_pixel_offset img22
              + (1 * file_table_width img22 + 0)]?
          ↔ 0 < file_raw_width img22
            ∧ key22[1 * file_raw_width img22 + 0]?
              ≠ ([0x03, 0x0F] : List Byte)[1 * file_raw_width img22 + 0]?)
      ∧ out22 ≠ out22.take 66 ++ [0xF0, 0x11, 0x22, 0x33] :=
  ⟨by decide,
    (C20_key_injectivity args22 img22 key22 [0x03, 0x0F] out22
      (out22.take 66 ++ [0xF0, 0x11, 0x22, 0x33]) rfl (by decide) (by decide) (by decide)
      main_args22 (by decide)).2.1 1 0 (by decide) (by decide),
    by decide⟩

end BmpXor
